import Mathlib

/-!
# zai2api: the stream transcoding engine of `server.js`

A shallow embedding of the two upstream `'data'` handlers of `server.js`
(`handleStreamResponseWithIDs`, `handleNonStreamResponseWithIDs`) and of the
thinking-text normalizer `transformThinking`, followed by theorems about them.

Modelling conventions

* A JavaScript string is the list of its UTF-16 code units (`Str`).
* A decoded JSON document is a `JSValue`; `JSON.parse` belongs to the JavaScript
  runtime, so the handlers take the decoder as a parameter `parse` and the general
  theorems hold for every decoder.  `jsonParse` is a model of the runtime decoder
  that is used for the concrete payloads.
* A chunk is the string `chunk.toString()` of a read.
* `res.write` is modelled by the list of writes it has produced.  The fields `id`
  and `created` of a chunk are read from the clock and `model` from the
  configuration; a write is recorded by the part of the chunk that depends on the
  upstream stream (`Write`).
* The configuration constant `THINK_TAGS_MODE` lives in `config.js`; it is the
  parameter `mode`.
* The conversion of a value that is not a string in `fullContent += out` belongs to
  the runtime; it is the parameter `toStr`, which returns `none` where the conversion
  throws a TypeError. The concrete runs pass a `toStr` that is never consulted or
  that throws.
-/

namespace Zai2Api



/-! ## Strings -/

/-- A JavaScript string, as the list of its UTF-16 code units. -/
abbrev Str := List Nat

/-- UTF-16 code units of one character. -/
def utf16 (c : Char) : Str :=
  if c.toNat < 65536 then [c.toNat]
  else [55296 + (c.toNat - 65536) / 1024, 56320 + (c.toNat - 65536) % 1024]

/-- The JavaScript string denoted by a literal. -/
def lit (s : String) : Str := s.toList.flatMap utf16

/-- Model of `s.startsWith(pat)`. -/
def startsWith : Str → Str → Bool
  | [], _ => true
  | _ :: _, [] => false
  | p :: ps, c :: cs => p == c && startsWith ps cs

/-- Model of `s.indexOf(pat)`: position of the first occurrence, `none` for `-1`. -/
def indexOf (pat : Str) : Str → Option Nat
  | [] => if startsWith pat [] then some 0 else none
  | c :: cs => if startsWith pat (c :: cs) then some 0 else (indexOf pat cs).map (· + 1)

/-- Model of a global regular-expression replace `s.replace(/re/g, rep)` for an
expression whose matches are never empty.  `m t` is the length of the match of the
expression anchored at the start of `t`, if there is one.  The scan goes left to
right; after a match it resumes behind the match, which the first argument counts
down (`0` at the start). -/
def replaceMatches (m : Str → Option Nat) (rep : Str) : Nat → Str → Str
  | _, [] => []
  | k + 1, _ :: cs => replaceMatches m rep k cs
  | 0, c :: cs =>
    match m (c :: cs) with
    | some len => rep ++ replaceMatches m rep (len - 1) cs
    | none => c :: replaceMatches m rep 0 cs

/-- Anchored match of a literal pattern. -/
def literalMatch (pat : Str) (t : Str) : Option Nat :=
  if startsWith pat t then some pat.length else none

/-- Anchored match of `/<summary>.*?<\/summary>/s`: the opening tag, then the
shortest run of arbitrary code units that is followed by the closing tag. -/
def summaryMatch (t : Str) : Option Nat :=
  if startsWith (lit "<summary>") t then
    (indexOf (lit "</summary>") (t.drop 9)).map (fun j => 9 + j + 10)
  else none

/-- Anchored match of `/<details[^>]*>/`: `<details`, then code units other than
`>`, then `>`. -/
def detailsMatch (t : Str) : Option Nat :=
  if startsWith (lit "<details") t then
    (indexOf (lit ">") (t.drop 8)).map (fun j => 8 + j + 1)
  else none

/-- Model of `s.replace(/pat/g, rep)` for a literal pattern. -/
def replaceAll (pat rep : Str) (s : Str) : Str :=
  replaceMatches (literalMatch pat) rep 0 s

/-- The code units removed by `String.prototype.trim`: WhiteSpace and
LineTerminator of ECMA-262. -/
def isWhiteSpace (c : Nat) : Bool :=
  c == 9 || c == 10 || c == 11 || c == 12 || c == 13 || c == 32 || c == 160 ||
  c == 5760 || (8192 ≤ c && c ≤ 8202) || c == 8232 || c == 8233 || c == 8239 ||
  c == 8287 || c == 12288 || c == 65279

/-- Model of `s.trim()`. -/
def trim (s : Str) : Str :=
  ((s.dropWhile isWhiteSpace).reverse.dropWhile isWhiteSpace).reverse

/-- Model of `s.replace(/^> /, '')` (no `g`, no `m` flag: start of the string only). -/
def stripLeadingQuote (s : Str) : Str :=
  if startsWith (lit "> ") s then s.drop 2 else s

/-! ## The normalizer (`server.js`, lines 236-260) -/

/-- Lines 238-243: the steps before the `switch`. -/
def cleanTags (s : Str) : Str :=
  let s := replaceMatches summaryMatch [] 0 s
  let s := replaceAll (lit "</thinking>") [] s
  let s := replaceAll (lit "<Full>") [] s
  let s := replaceAll (lit "</Full>") [] s
  trim s

/-- Lines 245-254: `switch (THINK_TAGS_MODE)`. -/
def applyMode (mode : Str) (s : Str) : Str :=
  if mode = lit "think" then
    replaceAll (lit "</details>") (lit "</span>") (replaceMatches detailsMatch (lit "<span>") 0 s)
  else if mode = lit "strip" then
    replaceAll (lit "</details>") [] (replaceMatches detailsMatch [] 0 s)
  else s

/-- Lines 257-259: the quote prefixes and the final `trim`. -/
def stripQuotes (s : Str) : Str :=
  trim (replaceAll (lit "\n> ") (lit "\n") (stripLeadingQuote s))

/-- The function `transformThinking` of `handleStreamResponseWithIDs`. -/
def transformThinking (mode : Str) (s : Str) : Str :=
  stripQuotes (applyMode mode (cleanTags s))

/-! ## JavaScript values -/

/-- A number of a JSON text: `(-1)^neg * digits * 10^exp`, kept exactly. -/
structure JSNumber where
  neg : Bool
  digits : Nat
  exp : Int
  deriving DecidableEq, Repr

/-- Whether the number is `0` or `-0` once rounded to a binary64 value (round to
nearest, ties to even): it is, exactly when its magnitude is at most `2^-1075`. -/
def JSNumber.isZero (n : JSNumber) : Bool :=
  n.digits == 0 || (decide (n.exp < 0) && decide (n.digits * 2 ^ 1075 ≤ 10 ^ n.exp.natAbs))

/-- The values the handlers see: what `JSON.parse` returns, and `undefined`. An
object is the list of its own properties. -/
inductive JSValue where
  | undefined
  | null
  | bool (b : Bool)
  | num (n : JSNumber)
  | str (s : Str)
  | arr (xs : List JSValue)
  | obj (kvs : List (Str × JSValue))

/-- ToBoolean. -/
def truthy : JSValue → Bool
  | .undefined => false
  | .null => false
  | .bool b => b
  | .num n => !n.isZero
  | .str s => !s.isEmpty
  | .arr _ => true
  | .obj _ => true

/-- Own property `k` of an object, `undefined` when absent. -/
def lookupKey (k : Str) : List (Str × JSValue) → JSValue
  | [] => .undefined
  | (k', v) :: rest => if k' = k then v else lookupKey k rest

/-- `[[Set]]` of `JSON.parse`: a repeated key overwrites the earlier value. -/
def setKey (k : Str) (v : JSValue) : List (Str × JSValue) → List (Str × JSValue)
  | [] => [(k, v)]
  | (k', w) :: rest => if k' = k then (k, v) :: rest else (k', w) :: setKey k v rest

/-- Property access `v.k` for the keys `server.js` reads (`error`, `data`, `inner`,
`delta_content`, `phase`, `done`, `code`, `detail`), none of which is a property of
a prototype: `none` is a thrown TypeError (`v` is `null` or `undefined`), a
primitive or an array has no such property. -/
def getProp (v : JSValue) (k : Str) : Option JSValue :=
  match v with
  | .undefined => none
  | .null => none
  | .obj kvs => some (lookupKey k kvs)
  | _ => some .undefined

/-- Value of `v && v.k`. -/
def andProp (v : JSValue) (k : Str) : Option JSValue :=
  if truthy v then getProp v k else some v

/-- Strict equality with a string literal, `v === 'lit'`. -/
def isString (v : JSValue) (s : Str) : Bool :=
  match v with
  | .str t => t == s
  | _ => false

/-! ## A model of `JSON.parse` -/

/-- JSON white space. -/
def isJsonSpace (c : Nat) : Bool := c == 9 || c == 10 || c == 13 || c == 32

def skipWS (s : Str) : Str := s.dropWhile isJsonSpace

def isDigit (c : Nat) : Bool := decide (48 ≤ c) && decide (c ≤ 57)

def hexVal (c : Nat) : Option Nat :=
  if 48 ≤ c ∧ c ≤ 57 then some (c - 48)
  else if 65 ≤ c ∧ c ≤ 70 then some (c - 55)
  else if 97 ≤ c ∧ c ≤ 102 then some (c - 87)
  else none

/-- The code unit of a one-letter escape. -/
def simpleEscape (c : Nat) : Option Nat :=
  if c = 34 then some 34 else if c = 92 then some 92 else if c = 47 then some 47
  else if c = 98 then some 8 else if c = 102 then some 12 else if c = 110 then some 10
  else if c = 114 then some 13 else if c = 116 then some 9 else none

/-- The characters of a JSON string after its opening quote; `acc` holds the code
units read so far, last first. -/
def parseStringBody : Str → Str → Option (Str × Str)
  | [], _ => none
  | c :: rest, acc =>
    if c = 34 then some (acc.reverse, rest)
    else if c = 92 then
      match rest with
      | [] => none
      | e :: rest1 =>
        if e = 117 then
          match rest1 with
          | h1 :: h2 :: h3 :: h4 :: rest2 =>
            match hexVal h1, hexVal h2, hexVal h3, hexVal h4 with
            | some a, some b, some c, some d =>
              parseStringBody rest2 ((((a * 16 + b) * 16 + c) * 16 + d) :: acc)
            | _, _, _, _ => none
          | _ => none
        else
          match simpleEscape e with
          | some x => parseStringBody rest1 (x :: acc)
          | none => none
    else if c < 32 then none
    else parseStringBody rest (c :: acc)

def digitsVal (ds : Str) : Nat := ds.foldl (fun a d => 10 * a + (d - 48)) 0

/-- The integer part: `0`, or a non-zero digit followed by digits. -/
def parseIntPart (s : Str) : Option (Str × Str) :=
  match s with
  | [] => none
  | c :: rest =>
    if c = 48 then some ([48], rest)
    else if isDigit c then some (c :: rest.takeWhile isDigit, rest.dropWhile isDigit)
    else none

/-- The optional fraction: `.` and at least one digit. -/
def parseFraction (s : Str) : Option (Str × Str) :=
  match s with
  | c :: rest =>
    if c = 46 then
      (if (rest.takeWhile isDigit).isEmpty then none
       else some (rest.takeWhile isDigit, rest.dropWhile isDigit))
    else some ([], s)
  | [] => some ([], s)

/-- The optional exponent: `e` or `E`, an optional sign and at least one digit. -/
def parseExponent (s : Str) : Option (Int × Str) :=
  match s with
  | c :: rest =>
    if c = 101 ∨ c = 69 then
      let negative := rest.head? = some 45
      let body := if rest.head? = some 45 ∨ rest.head? = some 43 then rest.drop 1 else rest
      if (body.takeWhile isDigit).isEmpty then none
      else
        let e : Int := digitsVal (body.takeWhile isDigit)
        some (if negative then -e else e, body.dropWhile isDigit)
    else some (0, s)
  | [] => some (0, s)

def parseNumber (s : Str) : Option (JSNumber × Str) :=
  let neg := s.head? = some 45
  let s0 := if neg then s.drop 1 else s
  match parseIntPart s0 with
  | none => none
  | some (ip, s1) =>
    match parseFraction s1 with
    | none => none
    | some (fp, s2) =>
      match parseExponent s2 with
      | none => none
      | some (e, s3) => some (⟨neg, digitsVal (ip ++ fp), e - fp.length⟩, s3)

mutual
/-- One JSON value at the start of the text (no leading white space). The first
argument bounds the number of nested calls. -/
def parseValue : Nat → Str → Option (JSValue × Str)
  | 0, _ => none
  | n + 1, s =>
    match s with
    | [] => none
    | c :: rest =>
      if c = 34 then
        match parseStringBody rest [] with
        | some (x, r) => some (.str x, r)
        | none => none
      else if c = 91 then
        match skipWS rest with
        | [] => none
        | d :: r => if d = 93 then some (.arr [], r) else parseElements n (d :: r) []
      else if c = 123 then
        match skipWS rest with
        | [] => none
        | d :: r => if d = 125 then some (.obj [], r) else parseMembers n (d :: r) []
      else if startsWith (lit "true") s then some (.bool true, s.drop 4)
      else if startsWith (lit "false") s then some (.bool false, s.drop 5)
      else if startsWith (lit "null") s then some (.null, s.drop 4)
      else
        match parseNumber s with
        | some (x, r) => some (.num x, r)
        | none => none
/-- The elements of an array after `[`; `acc` holds those read so far, last first. -/
def parseElements : Nat → Str → List JSValue → Option (JSValue × Str)
  | 0, _, _ => none
  | n + 1, s, acc =>
    match parseValue n (skipWS s) with
    | none => none
    | some (v, r) =>
      match skipWS r with
      | [] => none
      | d :: r1 =>
        if d = 44 then parseElements n r1 (v :: acc)
        else if d = 93 then some (.arr (v :: acc).reverse, r1)
        else none
/-- The members of an object after `{`; `acc` holds the properties set so far. -/
def parseMembers : Nat → Str → List (Str × JSValue) → Option (JSValue × Str)
  | 0, _, _ => none
  | n + 1, s, acc =>
    match skipWS s with
    | [] => none
    | q :: r =>
      if q = 34 then
        match parseStringBody r [] with
        | none => none
        | some (k, r1) =>
          match skipWS r1 with
          | [] => none
          | colon :: r2 =>
            if colon = 58 then
              match parseValue n (skipWS r2) with
              | none => none
              | some (v, r3) =>
                match skipWS r3 with
                | [] => none
                | d :: r4 =>
                  if d = 44 then parseMembers n r4 (setKey k v acc)
                  else if d = 125 then some (.obj (setKey k v acc), r4)
                  else none
            else none
      else none
end

/-- Model of `JSON.parse(text)`: one value surrounded by white space; `none` is a
thrown SyntaxError. Two nested calls are made for every level of nesting and one
for every further element, so twice the length of the text is enough. -/
def jsonParse (s : Str) : Option JSValue :=
  match parseValue (2 * s.length + 2) (skipWS s) with
  | some (v, r) => if (skipWS r).isEmpty then some v else none
  | none => none

/-! ## The streaming handler (`handleStreamResponseWithIDs`, lines 268-424) -/

/-- One `res.write` of the streaming handler. -/
inductive Write where
  /-- The first chunk, `delta: { role: 'assistant' }` (line 282). -/
  | role
  /-- A chunk with `delta: { reasoning_content: out }` (line 370). -/
  | reasoning (out : Str)
  /-- A chunk with `delta: { content: out }` (line 389). -/
  | content (out : JSValue)
  /-- The end chunk, `delta: {}` and `finish_reason: 'stop'` (lines 340, 413). -/
  | finish
  /-- The marker `data: [DONE]` (lines 341, 416). -/
  | done

/-- The condition of the `if` of lines 312-314; `none` is a thrown TypeError. -/
def errorCondition (u : JSValue) : Option Bool := do
  let e ← getProp u (lit "error")
  if truthy e then pure true else do
    let d ← getProp u (lit "data")
    let de ← andProp d (lit "error")
    if truthy de then pure true else do
      let d ← getProp u (lit "data")
      let di ← andProp d (lit "inner")
      let die ← andProp di (lit "error")
      pure (truthy die)

/-- The variable `errObj` after lines 315-321. -/
def errorObject (u : JSValue) : Option JSValue := do
  let e0 ← getProp u (lit "error")
  let e1 ← (if truthy e0 then pure e0 else do
    let d ← getProp u (lit "data")
    if truthy d then getProp d (lit "error") else pure e0)
  if truthy e1 then pure e1 else do
    let d ← getProp u (lit "data")
    let di ← andProp d (lit "inner")
    if truthy di then getProp di (lit "error") else pure e1

/-- The call `transformThinking(out)` on a decoded value: a value that is not a
string has no callable `replace`, the call throws a TypeError (`none`). -/
def callTransformThinking (mode : Str) (out : JSValue) : Option Str :=
  match out with
  | .str s => some (transformThinking mode s)
  | _ => none

/-- Lines 349-392: the writes for the content of one event. -/
def contentWrites (mode : Str) (u : JSValue) : Option (List Write) := do
  let d ← getProp u (lit "data")
  let out ← andProp d (lit "delta_content")
  if truthy out then do
    let phase ← getProp d (lit "phase")
    if isString phase (lit "thinking") then do
      let out ← callTransformThinking mode out
      pure (if truthy (.str out) then [Write.reasoning out] else [])
    else
      pure (if truthy out then [Write.content out] else [])
  else pure []

/-- The condition of the `if` of line 395. -/
def doneCondition (u : JSValue) : Option Bool := do
  let d ← getProp u (lit "data")
  if truthy d then do
    let dn ← getProp d (lit "done")
    if truthy dn then pure true else do
      let phase ← getProp d (lit "phase")
      pure (isString phase (lit "done"))
  else pure false

/-- Lines 311-419, the body of the `try` after `JSON.parse`: the writes made for
one decoded event and whether the handler executed `return`. `none` is a thrown
TypeError; every operation that can throw precedes the first write of the event. -/
def handleEvent (mode : Str) (u : JSValue) : Option (List Write × Bool) := do
  if (← errorCondition u) then do
    let errObj ← errorObject u
    let _ ← getProp errObj (lit "code")
    let _ ← getProp errObj (lit "detail")
    pure ([Write.finish, Write.done], true)
  else do
    let ws ← contentWrites mode u
    if (← doneCondition u) then pure (ws ++ [Write.finish, Write.done], true)
    else pure (ws, false)

/-- Lines 295-422: one iteration of the `for` loop. The writes made for one line and
whether the handler executed `return`. An exception thrown inside the `try` is
caught and the loop goes on. -/
def processLine (parse : Str → Option JSValue) (mode : Str) (line : Str) : List Write × Bool :=
  if !startsWith (lit "data: ") line then ([], false)
  else if (line.drop 6).isEmpty then ([], false)
  else
    match parse (line.drop 6) with
    | none => ([], false)
    | some u =>
      match handleEvent mode u with
      | none => ([], false)
      | some r => r

/-- Lines 294-423: the `for` loop over the complete lines, left by `return`. -/
def processLines (parse : Str → Option JSValue) (mode : Str) : List Str → List Write
  | [] => []
  | line :: rest =>
    if (processLine parse mode line).2 then (processLine parse mode line).1
    else (processLine parse mode line).1 ++ processLines parse mode rest

/-- Model of `s.split('\n')`. -/
def splitLines : Str → List Str
  | [] => [[]]
  | c :: cs =>
    if c = 10 then [] :: splitLines cs
    else
      match splitLines cs with
      | [] => [[c]]
      | l :: ls => (c :: l) :: ls

/-- Lines 289-424: the `'data'` callback. From the variable `buffer` and a chunk to
the new `buffer` and the writes of this call. -/
def onData (parse : Str → Option JSValue) (mode : Str) (buffer chunk : Str) : Str × List Write :=
  let lines := splitLines (buffer ++ chunk)
  (lines.getLastD [], processLines parse mode lines.dropLast)

/-- The `'data'` callback called once for every chunk, in order. -/
def feed (parse : Str → Option JSValue) (mode : Str) : Str → List Str → Str × List Write
  | buffer, [] => (buffer, [])
  | buffer, chunk :: rest =>
    let r := onData parse mode buffer chunk
    let r2 := feed parse mode r.1 rest
    (r2.1, r.2 ++ r2.2)

/-- All writes of one request: the role chunk (line 282), then those of the `'data'`
callback started with `buffer = ''` (line 287). -/
def handleStreamResponseWithIDs (parse : Str → Option JSValue) (mode : Str) (chunks : List Str) : List Write :=
  Write.role :: (feed parse mode [] chunks).2

/-! ## The aggregating handler (`handleNonStreamResponseWithIDs`, lines 454-551) -/

/-- Lines 484-503: the transformation written out inside the non-streaming handler. -/
def inlineThinking (mode : Str) (out : Str) : Str :=
  let out := replaceMatches summaryMatch [] 0 out
  let out := replaceAll (lit "</thinking>") [] out
  let out := replaceAll (lit "<Full>") [] out
  let out := replaceAll (lit "</Full>") [] out
  let out := trim out
  let out :=
    if mode = lit "think" then
      replaceAll (lit "</details>") (lit "</span>") (replaceMatches detailsMatch (lit "<span>") 0 out)
    else if mode = lit "strip" then
      replaceAll (lit "</details>") [] (replaceMatches detailsMatch [] 0 out)
    else out
  let out := stripLeadingQuote out
  let out := replaceAll (lit "\n> ") (lit "\n") out
  trim out

/-- The calls `out.replace(...)` of lines 484-503 on a decoded value: on a value
that is not a string the first call throws a TypeError (`none`). -/
def callInlineThinking (mode : Str) (out : JSValue) : Option JSValue :=
  match out with
  | .str s => some (.str (inlineThinking mode s))
  | _ => none

/-- The string appended by `fullContent += out`: `out` itself when it is a string,
else its conversion by the runtime operation ToString, the parameter `toStr`. `none`
is the TypeError the conversion throws, as it does for an object whose own property
`toString` is not callable. -/
def appended (toStr : JSValue → Option Str) (out : JSValue) : Option Str :=
  match out with
  | .str s => some s
  | v => toStr v

/-- Lines 477-515, the body of the `try` after `JSON.parse`: the new `fullContent`
and whether `isDone = true; return` was executed. `none` is a thrown TypeError, of
`out.replace` or of the conversion in `fullContent += out`; `fullContent` is assigned
after every operation that can throw. -/
def accumulateEvent (mode : Str) (toStr : JSValue → Option Str) (fullContent : Str) (u : JSValue) :
    Option (Str × Bool) := do
  let d ← getProp u (lit "data")
  let out ← andProp d (lit "delta_content")
  let full ← (if truthy out then do
      let phase ← getProp d (lit "phase")
      let out ← (if isString phase (lit "thinking") then callInlineThinking mode out else pure out)
      if truthy out then do
        let text ← appended toStr out
        pure (fullContent ++ text)
      else pure fullContent
    else pure fullContent)
  if (← doneCondition u) then pure (full, true) else pure (full, false)

/-- Lines 466-518: one iteration of the `for` loop of the non-streaming handler. -/
def accumulateLine (parse : Str → Option JSValue) (mode : Str) (toStr : JSValue → Option Str)
    (fullContent line : Str) : Str × Bool :=
  if !startsWith (lit "data: ") line then (fullContent, false)
  else if (line.drop 6).isEmpty then (fullContent, false)
  else
    match parse (line.drop 6) with
    | none => (fullContent, false)
    | some u =>
      match accumulateEvent mode toStr fullContent u with
      | none => (fullContent, false)
      | some r => r

/-- The variables `fullContent` and `isDone` (lines 455-456). -/
structure Collected where
  fullContent : Str
  isDone : Bool
  deriving DecidableEq

/-- Lines 466-519: the `for` loop over the pieces of one chunk, left by `return`
after `isDone = true`. -/
def accumulateLines (parse : Str → Option JSValue) (mode : Str) (toStr : JSValue → Option Str) :
    Str → List Str → Collected
  | fullContent, [] => ⟨fullContent, false⟩
  | fullContent, line :: rest =>
    if (accumulateLine parse mode toStr fullContent line).2 then
      ⟨(accumulateLine parse mode toStr fullContent line).1, true⟩
    else accumulateLines parse mode toStr (accumulateLine parse mode toStr fullContent line).1 rest

/-- Lines 460-520: the `'data'` callback of the non-streaming handler. The chunk is
split on its own; nothing is kept from one call to the next but the two variables. -/
def collectData (parse : Str → Option JSValue) (mode : Str) (toStr : JSValue → Option Str)
    (st : Collected) (chunk : Str) : Collected :=
  if st.isDone then st
  else accumulateLines parse mode toStr st.fullContent (splitLines chunk)

/-- The `'data'` callback called once for every chunk, from `fullContent = ''` and
`isDone = false`. -/
def collect (parse : Str → Option JSValue) (mode : Str) (toStr : JSValue → Option Str)
    (chunks : List Str) : Collected :=
  chunks.foldl (collectData parse mode toStr) ⟨[], false⟩

/-- The stream-dependent fields of the response object of lines 526-546. -/
structure Completion where
  content : Str
  finish_reason : Str
  prompt_tokens : Nat
  completion_tokens : Nat
  total_tokens : Nat
  deriving DecidableEq

/-- Lines 522-551: the `'end'` callback builds the response from `fullContent`. -/
def onEnd (st : Collected) : Completion :=
  ⟨st.fullContent, lit "stop", 0, 0, 0⟩

/-- The response of one non-streaming request. -/
def handleNonStreamResponseWithIDs (parse : Str → Option JSValue) (mode : Str) (toStr : JSValue → Option Str)
    (chunks : List Str) : Completion :=
  onEnd (collect parse mode toStr chunks)

/-! ## The notions of the specification

The definitions from here on are not translations of code. They state, on a decoded
event or a transcript, what the specification talks about: error signals, Terminal
events, the events of a transcript, the aggregated content. The theorems compare the
handlers with them. -/

/-- Optional chaining `v?.k` for the keys of `getProp`: `undefined` where `v.k`
would throw. -/
def get (v : JSValue) (k : Str) : JSValue := (getProp v k).getD .undefined

/-- An error signal is present: one of `upstream.error`, `upstream.data.error`,
`upstream.data.inner.error` is truthy. -/
def hasErrorSignal (u : JSValue) : Bool :=
  truthy (get u (lit "error")) || truthy (get (get u (lit "data")) (lit "error")) ||
    truthy (get (get (get u (lit "data")) (lit "inner")) (lit "error"))

/-- The first truthy one of `upstream.error`, `upstream.data.error`,
`upstream.data.inner.error`, in that order. -/
def firstError (u : JSValue) : JSValue :=
  if truthy (get u (lit "error")) then get u (lit "error")
  else if truthy (get (get u (lit "data")) (lit "error")) then get (get u (lit "data")) (lit "error")
  else get (get (get u (lit "data")) (lit "inner")) (lit "error")

/-- A Terminal event: `data.done` is truthy or `data.phase` is `'done'`. -/
def isTerminal (u : JSValue) : Bool :=
  truthy (get (get u (lit "data")) (lit "done")) ||
    isString (get (get u (lit "data")) (lit "phase")) (lit "done")

/-- The finish marker and `[DONE]` for a Terminal event, nothing otherwise. -/
def terminalWrites (u : JSValue) : List Write :=
  if isTerminal u then [Write.finish, Write.done] else []

/-- The event decoded from a line is not `null`: reading a property does not throw. -/
def readable (u : JSValue) : Bool :=
  match u with
  | .undefined => false
  | .null => false
  | _ => true

/-- The writes of lines 349-392 for an event, read off the decoded value; `none`
when `transformThinking` is called on a value that is not a string. -/
def contentWritesSpec (mode : Str) (u : JSValue) : Option (List Write) :=
  if truthy (get (get u (lit "data")) (lit "delta_content")) then
    if isString (get (get u (lit "data")) (lit "phase")) (lit "thinking") then
      (callTransformThinking mode (get (get u (lit "data")) (lit "delta_content"))).map
        (fun out => if out = [] then [] else [Write.reasoning out])
    else some [Write.content (get (get u (lit "data")) (lit "delta_content"))]
  else some []

/-- Model of `/re/.test(s)` for an expression whose matches are never empty, given by
its anchored match `m` as in `replaceMatches`. -/
def matchesIn (m : Str → Option Nat) : Str → Bool
  | [] => false
  | c :: cs => (m (c :: cs)).isSome || matchesIn m cs

/-- None of the expressions that `transformThinking` rewrites under `mode` matches in
`t`: no `<summary>…</summary>`, none of `</thinking>`, `<Full>`, `</Full>`, under the
modes `think` and `strip` no `<details…>` and no `</details>`, no `> ` at the start
and none behind a newline. -/
def patternFree (mode : Str) (t : Str) : Bool :=
  !matchesIn summaryMatch t && !matchesIn (literalMatch (lit "</thinking>")) t &&
  !matchesIn (literalMatch (lit "<Full>")) t && !matchesIn (literalMatch (lit "</Full>")) t &&
  (if mode = lit "think" ∨ mode = lit "strip" then
    !matchesIn detailsMatch t && !matchesIn (literalMatch (lit "</details>")) t else true) &&
  !startsWith (lit "> ") t && !matchesIn (literalMatch (lit "\n> ")) t

/-- The event of a line (lines 467-477): the line starts with `data: `, the rest is
not empty and is decoded. -/
def decodeLine (parse : Str → Option JSValue) (line : Str) : Option JSValue :=
  if !startsWith (lit "data: ") line then none
  else if (line.drop 6).isEmpty then none
  else parse (line.drop 6)

/-- The events of a transcript, in arrival order. -/
def events (parse : Str → Option JSValue) (transcript : Str) : List JSValue :=
  (splitLines transcript).filterMap (decodeLine parse)

/-- What one event contributes to the content: nothing without a truthy
`data.delta_content`; the normalized text of a thinking fragment; the text of an
answer fragment as it came (a value that is not a string as the runtime converts it). -/
def fragmentText (mode : Str) (toStr : JSValue → Option Str) (u : JSValue) : Str :=
  if truthy (get (get u (lit "data")) (lit "delta_content")) then
    if isString (get (get u (lit "data")) (lit "phase")) (lit "thinking") then
      match get (get u (lit "data")) (lit "delta_content") with
      | .str s => transformThinking mode s
      | _ => []
    else (appended toStr (get (get u (lit "data")) (lit "delta_content"))).getD []
  else []

/-- The concatenation, in arrival order, of what the events contribute, up to and
including the first Terminal event. -/
def aggregatedContent (mode : Str) (toStr : JSValue → Option Str) : List JSValue → Str
  | [] => []
  | u :: rest =>
    fragmentText mode toStr u ++ (if isTerminal u then [] else aggregatedContent mode toStr rest)

/-- The `delta_content` of a thinking-phase event is text: the event does not combine
`data.phase === 'thinking'` with a truthy `data.delta_content` that is not a string. -/
def thinkingIsText (u : JSValue) : Bool :=
  match get (get u (lit "data")) (lit "delta_content") with
  | .str _ => true
  | d => !(truthy d && isString (get (get u (lit "data")) (lit "phase")) (lit "thinking"))

/-- The content of the event does not make lines 479-509 throw: a truthy
`data.delta_content` that is not a string comes with a phase other than `thinking`
and its conversion to a string by `+=` does not throw. -/
def contentConverts (toStr : JSValue → Option Str) (u : JSValue) : Bool :=
  match get (get u (lit "data")) (lit "delta_content") with
  | .str _ => true
  | d => !truthy d ||
      (!isString (get (get u (lit "data")) (lit "phase")) (lit "thinking") && (toStr d).isSome)

/-- The chunk is made of complete lines: it is empty or ends with a newline. -/
def completeLines (chunk : Str) : Bool :=
  chunk.isEmpty || chunk.getLast? == some 10

/-- The loop of the non-streaming handler continued on further lines, unless
`isDone` is set. -/
def resume (parse : Str → Option JSValue) (mode : Str) (toStr : JSValue → Option Str)
    (st : Collected) (lines : List Str) : Collected :=
  if st.isDone then st else accumulateLines parse mode toStr st.fullContent lines

/-- A reasoning or content delta chunk. -/
def Write.isDelta : Write → Bool
  | .reasoning _ => true
  | .content _ => true
  | _ => false

/-- The delta chunks of an event, read off the decoded value: nothing without a
truthy `data.delta_content`; for the phase `thinking` the normalized text when it is
not empty; else the content as it came. -/
def deltaWrites (mode : Str) (u : JSValue) : List Write :=
  if truthy (get (get u (lit "data")) (lit "delta_content")) then
    if isString (get (get u (lit "data")) (lit "phase")) (lit "thinking") then
      match get (get u (lit "data")) (lit "delta_content") with
      | .str s => if transformThinking mode s = [] then [] else [Write.reasoning (transformThinking mode s)]
      | _ => []
    else [Write.content (get (get u (lit "data")) (lit "delta_content"))]
  else []

/-- The text a write adds to the concatenation of the deltas: the `reasoning_content`
or the string `content` of a delta chunk, nothing for any other write. -/
def deltaText : Write → Str
  | .reasoning s => s
  | .content (.str s) => s
  | _ => []

/-- The `delta_content` of the event, when it is truthy, is a string. -/
def deltaIsText (u : JSValue) : Bool :=
  match get (get u (lit "data")) (lit "delta_content") with
  | .str _ => true
  | d => !truthy d

/-- The three places of an error field: `upstream.error`, `upstream.data.error`,
`upstream.data.inner.error`. -/
inductive ErrorPlace where
  | top
  | data
  | inner
  deriving DecidableEq

/-- The object with the property `k` set to `v`; a value that is not an object is
left as it is. -/
def setField (k : Str) (v : JSValue) : JSValue → JSValue
  | .obj kvs => .obj (setKey k v kvs)
  | u => u

/-- The object without the property `k`. -/
def removeField (k : Str) : JSValue → JSValue
  | .obj kvs => .obj (kvs.filter (fun p => p.1 != k))
  | u => u

/-- The object with `f` applied to its property `k`, when that property is an
object; anything else is left as it is. -/
def updateField (k : Str) (f : JSValue → JSValue) : JSValue → JSValue
  | .obj kvs =>
    match lookupKey k kvs with
    | .obj inner => .obj (setKey k (f (.obj inner)) kvs)
    | _ => .obj kvs
  | u => u

/-- The event with the value `v` placed in the error field at `place`, where the
object that holds the field exists. -/
def placeError : ErrorPlace → JSValue → JSValue → JSValue
  | .top, v, u => setField (lit "error") v u
  | .data, v, u => updateField (lit "data") (setField (lit "error") v) u
  | .inner, v, u =>
    updateField (lit "data") (updateField (lit "inner") (setField (lit "error") v)) u

/-- The event with the error field at `place` removed. -/
def removeError : ErrorPlace → JSValue → JSValue
  | .top, u => removeField (lit "error") u
  | .data, u => updateField (lit "data") (removeField (lit "error")) u
  | .inner, u => updateField (lit "data") (updateField (lit "inner") (removeField (lit "error"))) u

/-- The object that holds the error field at `place` exists in the event. -/
def hasPlace : ErrorPlace → JSValue → Bool
  | .top, .obj _ => true
  | .data, u => match get u (lit "data") with
    | .obj _ => true
    | _ => false
  | .inner, u => match get (get u (lit "data")) (lit "inner") with
    | .obj _ => true
    | _ => false
  | _, _ => false

/-- The outcome of lines 479-515 as a function of `data.delta_content`, `data.phase`
and `data.done`. -/
def eventResult (mode : Str) (toStr : JSValue → Option Str) (full : Str) (dc ph dn : JSValue) :
    Option (Str × Bool) :=
  (if truthy dc then
      (if isString ph (lit "thinking") then callInlineThinking mode dc else some dc).bind
        (fun out => if truthy out then (appended toStr out).map (fun text => full ++ text)
          else some full)
    else some full).map
    (fun f => (f, truthy dn || isString ph (lit "done")))

/-- Model of `s.includes(tok)` for a token that is not empty. -/
def includes (tok s : Str) : Bool := matchesIn (literalMatch tok) s

/-- From the state `o` (a `<` was read and no `>` since), no `<` of the text stands
inside an unclosed `<`. -/
def tagsClosedFrom : Bool → Str → Bool
  | _, [] => true
  | o, c :: cs =>
    if c = 60 then !o && tagsClosedFrom true cs
    else if c = 62 then tagsClosedFrom false cs
    else tagsClosedFrom o cs

/-- No tag opens inside another: between a `<` of the text and the next `<` there
is a `>`. -/
def tagsNotNested (s : Str) : Bool := tagsClosedFrom false s

/-- The text of a tag behind its `<`: no `<`, and no `>` unless it is the last
code unit. -/
def tagTail : Str → Bool
  | [] => true
  | c :: cs => c != 60 && (c != 62 || cs.isEmpty) && tagTail cs

/-- Every match of `m` is a piece of text from a `<` to a `>`. -/
def TagMatcher (m : Str → Option Nat) : Prop :=
  ∀ (t : Str) (len : Nat), m t = some len →
    ∃ g r : Str, t = 60 :: (g ++ 62 :: r) ∧ len = g.length + 2

/-! # Theorems -/

/-! ## Basic facts -/

theorem lit_data : lit "data: " = [100, 97, 116, 97, 58, 32] := by decide

theorem startsWith_append (p s : Str) : startsWith p (p ++ s) = true := by
  induction p with
  | nil => simp [startsWith]
  | cons a p ih => simp [startsWith, ih]

theorem truthy_get_imp (v : JSValue) (k : Str) (h : truthy (get v k) = true) :
    truthy v = true := by
  cases v <;> simp_all [get, getProp, truthy]

theorem getProp_of_truthy (v : JSValue) (k : Str) (h : truthy v = true) :
    getProp v k = some (get v k) := by
  cases v <;> simp_all [get, getProp, truthy]

theorem andProp_of_truthy (v : JSValue) (k : Str) (h : truthy v = true) :
    andProp v k = some (get v k) := by
  simp [andProp, h, getProp_of_truthy]

theorem andProp_of_falsy (v : JSValue) (k : Str) (h : truthy v = false) :
    andProp v k = some v := by
  simp [andProp, h]

theorem truthy_get_of_falsy (v : JSValue) (k : Str) (h : truthy v = false) :
    truthy (get v k) = false := by
  cases hg : truthy (get v k)
  · rfl
  · rw [truthy_get_imp v k hg] at h; cases h

theorem getProp_of_readable (u : JSValue) (k : Str) (h : readable u = true) :
    getProp u k = some (get u k) := by
  cases u <;> simp_all [get, getProp, readable]

theorem getProp_of_not_readable (u : JSValue) (k : Str) (h : readable u = false) :
    getProp u k = none := by
  cases u <;> simp_all [getProp, readable]

theorem get_of_not_readable (u : JSValue) (k : Str) (h : readable u = false) :
    get u k = .undefined := by
  simp [get, getProp_of_not_readable u k h]

theorem readable_of_truthy (u : JSValue) (h : truthy u = true) : readable u = true := by
  cases u <;> simp_all [truthy, readable]

theorem errorCondition_eq (u : JSValue) (h : readable u = true) :
    errorCondition u = some (hasErrorSignal u) := by
  simp only [errorCondition, hasErrorSignal, getProp_of_readable u _ h, Option.bind_eq_bind,
    Option.some_bind, Option.pure_def]
  cases he : truthy (get u (lit "error"))
  · cases hd : truthy (get u (lit "data"))
    · simp [andProp_of_falsy _ _ hd, hd, truthy_get_of_falsy _ _ hd,
        truthy_get_of_falsy _ _ (truthy_get_of_falsy _ (lit "inner") hd)]
    · simp only [andProp_of_truthy _ _ hd, Option.some_bind]
      cases hde : truthy (get (get u (lit "data")) (lit "error"))
      · cases hdi : truthy (get (get u (lit "data")) (lit "inner"))
        · simp [andProp_of_falsy _ _ hdi, hdi, truthy_get_of_falsy _ _ hdi]
        · simp [andProp_of_truthy _ _ hdi]
      · simp
  · simp

theorem errorCondition_of_not_readable (u : JSValue) (h : readable u = false) :
    errorCondition u = none := by
  simp [errorCondition, getProp_of_not_readable u _ h]

theorem hasErrorSignal_of_not_readable (u : JSValue) (h : readable u = false) :
    hasErrorSignal u = false := by
  have hu : ∀ k, get JSValue.undefined k = JSValue.undefined := fun _ => rfl
  simp only [hasErrorSignal, get_of_not_readable u _ h, hu]
  rfl

theorem errorObject_eq (u : JSValue) (h : hasErrorSignal u = true) :
    errorObject u = some (firstError u) ∧ truthy (firstError u) = true := by
  have hr : readable u = true := by
    cases hr : readable u
    · rw [hasErrorSignal_of_not_readable u hr] at h; cases h
    · rfl
  simp only [errorObject, firstError, getProp_of_readable u _ hr, Option.bind_eq_bind,
    Option.some_bind, Option.pure_def]
  simp only [hasErrorSignal, Bool.or_eq_true] at h
  cases he : truthy (get u (lit "error"))
  · cases hde : truthy (get (get u (lit "data")) (lit "error"))
    · have hdie : truthy (get (get (get u (lit "data")) (lit "inner")) (lit "error")) = true := by
        simpa [he, hde] using h
      have hdi := truthy_get_imp _ _ hdie
      have hd := truthy_get_imp _ _ hdi
      simp [hd, he, hde, hdi, hdie, getProp_of_truthy, andProp_of_truthy]
    · have hd := truthy_get_imp _ _ hde
      simp [hd, he, hde, getProp_of_truthy]
  · simp [he]

theorem doneCondition_eq (u : JSValue) (h : readable u = true) :
    doneCondition u = some (isTerminal u) := by
  simp only [doneCondition, isTerminal, getProp_of_readable u _ h, Option.bind_eq_bind,
    Option.some_bind, Option.pure_def]
  cases hd : truthy (get u (lit "data"))
  · have h1 := truthy_get_of_falsy _ (lit "done") hd
    have h2 : get (get u (lit "data")) (lit "phase") = JSValue.undefined := by
      revert hd
      cases get u (lit "data") <;> simp [get, getProp, truthy]
    simp [h1, h2, isString]
  · simp only [getProp_of_truthy _ _ hd, Option.some_bind, if_true]
    cases hdn : truthy (get (get u (lit "data")) (lit "done")) <;> simp

theorem contentWrites_eq (mode : Str) (u : JSValue) (h : readable u = true) :
    contentWrites mode u = contentWritesSpec mode u := by
  simp only [contentWrites, contentWritesSpec, getProp_of_readable u _ h, Option.bind_eq_bind,
    Option.some_bind, Option.pure_def]
  cases hd : truthy (get u (lit "data"))
  · simp [andProp_of_falsy _ _ hd, hd, truthy_get_of_falsy _ _ hd]
  · simp only [andProp_of_truthy _ _ hd, getProp_of_truthy _ _ hd, Option.some_bind]
    cases hdc : truthy (get (get u (lit "data")) (lit "delta_content"))
    · simp
    · simp only [if_true]
      cases hph : isString (get (get u (lit "data")) (lit "phase")) (lit "thinking")
      · simp
      · simp only [if_true]
        cases hc : callTransformThinking mode (get (get u (lit "data")) (lit "delta_content")) with
        | none => simp
        | some out => cases out <;> simp [truthy]

theorem handleEvent_of_error (mode : Str) (u : JSValue) (h : hasErrorSignal u = true) :
    handleEvent mode u = some ([Write.finish, Write.done], true) := by
  have hr : readable u = true := by
    cases hr : readable u
    · rw [hasErrorSignal_of_not_readable u hr] at h; cases h
    · rfl
  obtain ⟨h1, h2⟩ := errorObject_eq u h
  simp [handleEvent, errorCondition_eq u hr, h, h1, getProp_of_truthy _ _ h2]

theorem handleEvent_of_no_error (mode : Str) (u : JSValue) (hr : readable u = true)
    (h : hasErrorSignal u = false) :
    handleEvent mode u = (contentWritesSpec mode u).map (fun ws => (ws ++ terminalWrites u, isTerminal u)) := by
  simp only [handleEvent, errorCondition_eq u hr, h, contentWrites_eq mode u hr,
    doneCondition_eq u hr, Option.bind_eq_bind, Option.some_bind, Option.pure_def]
  cases contentWritesSpec mode u with
  | none => simp
  | some ws => cases ht : isTerminal u <;> simp [terminalWrites, ht]

theorem handleEvent_of_not_readable (mode : Str) (u : JSValue) (hr : readable u = false) :
    handleEvent mode u = none := by
  simp [handleEvent, errorCondition_of_not_readable u hr]

theorem processLine_data (parse : Str → Option JSValue) (mode payload : Str) (u : JSValue)
    (hpay : payload ≠ []) (hparse : parse payload = some u) :
    processLine parse mode (lit "data: " ++ payload) = (handleEvent mode u).getD ([], false) := by
  have hd : List.drop 6 (lit "data: " ++ payload) = payload := by simp [lit_data]
  simp only [processLine, startsWith_append, hd, hparse]
  cases handleEvent mode u <;> simp [hpay]

theorem splitLines_ne_nil (s : Str) : splitLines s ≠ [] := by
  induction s with
  | nil => simp [splitLines]
  | cons c cs ih =>
    unfold splitLines
    split
    · simp
    · split <;> simp

theorem splitLines_of_not_mem (l : Str) (h : 10 ∉ l) : splitLines l = [l] := by
  induction l with
  | nil => rfl
  | cons c cs ih =>
    simp only [List.mem_cons, not_or] at h
    have hc : c ≠ 10 := fun e => h.1 e.symm
    simp [splitLines, hc, ih h.2]

theorem splitLines_append_newline (a b : Str) :
    splitLines (a ++ 10 :: b) = splitLines a ++ splitLines b := by
  induction a with
  | nil => simp [splitLines]
  | cons c cs ih =>
    by_cases hc : c = 10
    · simp [splitLines, hc, ih]
    · cases hs : splitLines cs with
      | nil => exact absurd hs (splitLines_ne_nil cs)
      | cons l ls =>
        rw [hs] at ih
        simp [splitLines, hc, ih, hs]

/-- The `'data'` callback on an empty `buffer` and a chunk that is one line with its
terminator runs the loop body once, on that line, and leaves `buffer` empty. -/
theorem onData_single_line (parse : Str → Option JSValue) (mode l : Str) (h : 10 ∉ l) :
    onData parse mode [] (l ++ [10]) = ([], (processLine parse mode l).1) := by
  have hs : splitLines (l ++ [10]) = [l, []] := by
    rw [splitLines_append_newline, splitLines_of_not_mem l h]; rfl
  simp only [onData, List.nil_append, hs]
  simp [processLines]

/-! ## Fixed points of the normalizer -/

theorem replaceMatches_of_no_match (m : Str → Option Nat) (rep s : Str)
    (h : matchesIn m s = false) : replaceMatches m rep 0 s = s := by
  induction s with
  | nil => rfl
  | cons c cs ih =>
    simp only [matchesIn, Bool.or_eq_false_iff] at h
    have hm : m (c :: cs) = none := by
      cases hv : m (c :: cs) with
      | none => rfl
      | some n => rw [hv] at h; exact absurd h.1 (by simp)
    simp [replaceMatches, hm, ih h.2]

theorem replaceAll_of_no_match (pat rep s : Str) (h : matchesIn (literalMatch pat) s = false) :
    replaceAll pat rep s = s :=
  replaceMatches_of_no_match _ rep s h

theorem dropWhile_head_false (p : Nat → Bool) (s : Str) (x : Nat) (r : Str)
    (h : s.dropWhile p = x :: r) : p x = false := by
  induction s with
  | nil => simp at h
  | cons a t ih =>
    rw [List.dropWhile_cons] at h
    by_cases hp : p a = true
    · rw [if_pos hp] at h; exact ih h
    · rw [if_neg hp] at h
      simp only [List.cons.injEq] at h
      rw [← h.1]; simpa using hp

theorem trim_trim (s : Str) : trim (trim s) = trim s := by
  have e : ∀ x, trim x = List.rdropWhile isWhiteSpace (List.dropWhile isWhiteSpace x) :=
    fun _ => rfl
  rw [e, e]
  have h : List.dropWhile isWhiteSpace
        (List.rdropWhile isWhiteSpace (List.dropWhile isWhiteSpace s))
      = List.rdropWhile isWhiteSpace (List.dropWhile isWhiteSpace s) := by
    obtain ⟨t, ht⟩ := List.rdropWhile_prefix isWhiteSpace (l := List.dropWhile isWhiteSpace s)
    cases hr : List.rdropWhile isWhiteSpace (List.dropWhile isWhiteSpace s) with
    | nil => rfl
    | cons x r =>
      rw [hr] at ht
      have hx := dropWhile_head_false isWhiteSpace s x (r ++ t) (by rw [← ht]; rfl)
      simp [List.dropWhile_cons, hx]
  rw [h, List.rdropWhile_idempotent]

/-- A trimmed text in which none of the expressions matches is left as it is. -/
theorem transformThinking_fixed (mode t : Str) (hfree : patternFree mode t = true)
    (htrim : trim t = t) : transformThinking mode t = t := by
  simp only [patternFree, Bool.and_eq_true, Bool.not_eq_true'] at hfree
  obtain ⟨⟨⟨⟨⟨⟨h1, h2⟩, h3⟩, h4⟩, h5⟩, h6⟩, h7⟩ := hfree
  have hclean : cleanTags t = t := by
    simp only [cleanTags, replaceMatches_of_no_match _ _ t h1, replaceAll_of_no_match _ _ t h2,
      replaceAll_of_no_match _ _ t h3, replaceAll_of_no_match _ _ t h4, htrim]
  have hmode : applyMode mode t = t := by
    unfold applyMode
    by_cases hm1 : mode = lit "think"
    · simp only [hm1, true_or, if_true, Bool.and_eq_true, Bool.not_eq_true'] at h5 ⊢
      rw [replaceMatches_of_no_match _ _ t h5.1, replaceAll_of_no_match _ _ t h5.2]
    · by_cases hm2 : mode = lit "strip"
      · simp only [hm2, or_true, if_true, Bool.and_eq_true, Bool.not_eq_true'] at h5
        rw [if_neg hm1, if_pos hm2, replaceMatches_of_no_match _ _ t h5.1,
          replaceAll_of_no_match _ _ t h5.2]
      · rw [if_neg hm1, if_neg hm2]
  have hquote : stripQuotes t = t := by
    simp only [stripQuotes, stripLeadingQuote, h6, Bool.false_eq_true, if_false,
      replaceAll_of_no_match _ _ t h7, htrim]
  simp only [transformThinking, hclean, hmode, hquote]

theorem trim_transformThinking (mode s : Str) :
    trim (transformThinking mode s) = transformThinking mode s := by
  simp only [transformThinking, stripQuotes, trim_trim]

/-! ## The aggregated content, read off the events -/

theorem inlineThinking_eq_transformThinking (mode s : Str) :
    inlineThinking mode s = transformThinking mode s := rfl

theorem get_of_falsy (v : JSValue) (k : Str) (h : truthy v = false) : get v k = .undefined := by
  cases v <;> simp_all [get, getProp, truthy]

theorem accumulateEvent_core (mode : Str) (toStr : JSValue → Option Str) (full : Str) (u : JSValue)
    (hr : readable u = true) :
    accumulateEvent mode toStr full u
      = eventResult mode toStr full (get (get u (lit "data")) (lit "delta_content"))
          (get (get u (lit "data")) (lit "phase")) (get (get u (lit "data")) (lit "done")) := by
  simp only [accumulateEvent, eventResult, getProp_of_readable u _ hr, doneCondition_eq u hr,
    isTerminal, Option.bind_eq_bind, Option.some_bind, Option.pure_def]
  cases hd : truthy (get u (lit "data"))
  · cases hT2 : isString (get (get u (lit "data")) (lit "phase")) (lit "done") <;>
      simp [andProp_of_falsy _ _ hd, hd, truthy_get_of_falsy _ _ hd]
  · simp only [andProp_of_truthy _ _ hd, getProp_of_truthy _ _ hd, Option.some_bind]
    cases hdc : truthy (get (get u (lit "data")) (lit "delta_content"))
    · cases hT1 : truthy (get (get u (lit "data")) (lit "done")) <;>
      cases hT2 : isString (get (get u (lit "data")) (lit "phase")) (lit "done") <;> simp
    · simp only [if_true]
      generalize (if isString (get (get u (lit "data")) (lit "phase")) (lit "thinking") = true
        then callInlineThinking mode (get (get u (lit "data")) (lit "delta_content"))
        else pure (get (get u (lit "data")) (lit "delta_content"))) = r
      cases r with
      | none => rfl
      | some out =>
        simp only [Option.some_bind]
        cases hto : truthy out
        · cases hT1 : truthy (get (get u (lit "data")) (lit "done")) <;>
          cases hT2 : isString (get (get u (lit "data")) (lit "phase")) (lit "done") <;> simp
        · cases appended toStr out <;>
          cases hT1 : truthy (get (get u (lit "data")) (lit "done")) <;>
          cases hT2 : isString (get (get u (lit "data")) (lit "phase")) (lit "done") <;> simp

theorem eventResult_of_converts (mode : Str) (toStr : JSValue → Option Str) (full : Str)
    (u : JSValue) (ht : contentConverts toStr u = true) :
    eventResult mode toStr full (get (get u (lit "data")) (lit "delta_content"))
        (get (get u (lit "data")) (lit "phase")) (get (get u (lit "data")) (lit "done"))
      = some (full ++ fragmentText mode toStr u, isTerminal u) := by
  unfold contentConverts at ht
  unfold eventResult fragmentText isTerminal
  cases hv : get (get u (lit "data")) (lit "delta_content") with
  | str s =>
    cases hs : truthy (JSValue.str s)
    · simp
    · cases hph : isString (get (get u (lit "data")) (lit "phase")) (lit "thinking")
      · simp [appended, hs]
      · simp only [if_true, callInlineThinking, Option.some_bind,
          inlineThinking_eq_transformThinking]
        cases hn : transformThinking mode s with
        | nil => simp [truthy]
        | cons a t => simp [truthy, appended]
  | undefined => simp [truthy]
  | null => simp [truthy]
  | bool b =>
    rw [hv] at ht
    cases b
    · simp [truthy]
    · cases hc : toStr (JSValue.bool true) <;> simp_all [truthy, appended]
  | num n =>
    rw [hv] at ht
    cases hn : truthy (JSValue.num n)
    · simp
    · cases hc : toStr (JSValue.num n) <;> simp_all [appended]
  | arr xs =>
    rw [hv] at ht
    cases hc : toStr (JSValue.arr xs) <;> simp_all [truthy, appended]
  | obj kvs =>
    rw [hv] at ht
    cases hc : toStr (JSValue.obj kvs) <;> simp_all [truthy, appended]

theorem accumulateEvent_eq (mode : Str) (toStr : JSValue → Option Str) (full : Str) (u : JSValue)
    (hr : readable u = true) (ht : contentConverts toStr u = true) :
    accumulateEvent mode toStr full u = some (full ++ fragmentText mode toStr u, isTerminal u) := by
  rw [accumulateEvent_core mode toStr full u hr, eventResult_of_converts mode toStr full u ht]

theorem fragmentText_of_not_readable (mode : Str) (toStr : JSValue → Option Str) (u : JSValue)
    (hr : readable u = false) : fragmentText mode toStr u = [] := by
  have hu : ∀ k, get JSValue.undefined k = JSValue.undefined := fun _ => rfl
  simp only [fragmentText, get_of_not_readable u _ hr, hu]
  rfl

theorem isTerminal_of_not_readable (u : JSValue) (hr : readable u = false) :
    isTerminal u = false := by
  have hu : ∀ k, get JSValue.undefined k = JSValue.undefined := fun _ => rfl
  simp only [isTerminal, get_of_not_readable u _ hr, hu]
  rfl

theorem accumulateEvent_of_not_readable (mode : Str) (toStr : JSValue → Option Str) (full : Str)
    (u : JSValue) (hr : readable u = false) : accumulateEvent mode toStr full u = none := by
  simp [accumulateEvent, getProp_of_not_readable u _ hr]

/-- One iteration of the loop of the non-streaming handler, on the event of the line. -/
theorem accumulateLine_eq (parse : Str → Option JSValue) (mode : Str) (toStr : JSValue → Option Str)
    (full line : Str) (ht : ∀ u, decodeLine parse line = some u → contentConverts toStr u = true) :
    accumulateLine parse mode toStr full line =
      match decodeLine parse line with
      | none => (full, false)
      | some u => (full ++ fragmentText mode toStr u, isTerminal u) := by
  unfold accumulateLine
  unfold decodeLine at ht ⊢
  by_cases h1 : (!startsWith (lit "data: ") line) = true
  · simp [h1]
  · by_cases h2 : (line.drop 6).isEmpty = true
    · simp [h1, h2]
    · simp only [h1, h2, if_false] at ht ⊢
      cases hp : parse (line.drop 6) with
      | none => rfl
      | some u =>
        cases hr : readable u
        · simp [accumulateEvent_of_not_readable mode toStr full u hr,
            fragmentText_of_not_readable mode toStr u hr, isTerminal_of_not_readable u hr]
        · simp [accumulateEvent_eq mode toStr full u hr (ht u hp)]

theorem accumulateLines_fullContent (parse : Str → Option JSValue) (mode : Str)
    (toStr : JSValue → Option Str) (lines : List Str) :
    ∀ full : Str, (∀ u ∈ lines.filterMap (decodeLine parse), contentConverts toStr u = true) →
      (accumulateLines parse mode toStr full lines).fullContent
        = full ++ aggregatedContent mode toStr (lines.filterMap (decodeLine parse)) := by
  induction lines with
  | nil => intro full _; simp [accumulateLines, aggregatedContent]
  | cons line rest ih =>
    intro full ht
    have ht1 : ∀ u, decodeLine parse line = some u → contentConverts toStr u = true := by
      intro u hu
      apply ht
      simp [List.filterMap_cons, hu]
    have ht2 : ∀ u ∈ rest.filterMap (decodeLine parse), contentConverts toStr u = true := by
      intro u hu
      apply ht
      cases hd : decodeLine parse line <;> simp [List.filterMap_cons, hd, hu]
    have hl := accumulateLine_eq parse mode toStr full line ht1
    unfold accumulateLines
    cases hd : decodeLine parse line with
    | none =>
      rw [hd] at hl
      simp [hl, List.filterMap_cons, hd, ih full ht2]
    | some u =>
      rw [hd] at hl
      cases hT : isTerminal u
      · simp [hl, hT, List.filterMap_cons, hd, aggregatedContent, ih _ ht2]
      · simp [hl, hT, List.filterMap_cons, hd, aggregatedContent]

theorem resume_append (parse : Str → Option JSValue) (mode : Str) (toStr : JSValue → Option Str)
    (l1 l2 : List Str) (st : Collected) :
    resume parse mode toStr (resume parse mode toStr st l1) l2
      = resume parse mode toStr st (l1 ++ l2) := by
  cases hst : st.isDone
  · simp only [resume, hst]
    generalize st.fullContent = full
    induction l1 generalizing full with
    | nil => simp [accumulateLines]
    | cons l ls ih =>
      simp only [List.cons_append, accumulateLines]
      cases h : (accumulateLine parse mode toStr full l).2
      · simpa using ih _
      · simp
  · simp [resume, hst]

theorem collect_eq_resume (parse : Str → Option JSValue) (mode : Str) (toStr : JSValue → Option Str)
    (chunks : List Str) (st : Collected) :
    chunks.foldl (collectData parse mode toStr) st
      = resume parse mode toStr st (chunks.flatMap splitLines) := by
  induction chunks generalizing st with
  | nil =>
    cases st with
    | mk full isDone => cases isDone <;> simp [resume, accumulateLines]
  | cons c cs ih =>
    have hc : collectData parse mode toStr st c = resume parse mode toStr st (splitLines c) := rfl
    simp only [List.foldl_cons, hc, ih, List.flatMap_cons, resume_append]

theorem decodeLine_nil (parse : Str → Option JSValue) : decodeLine parse [] = none := by
  simp [decodeLine, lit_data, startsWith]

theorem completeLines_cases (c : Str) (h : completeLines c = true) :
    c = [] ∨ ∃ p, c = p ++ [10] := by
  simp only [completeLines, Bool.or_eq_true, List.isEmpty_iff, beq_iff_eq] at h
  rcases h with h | h
  · exact Or.inl h
  · exact Or.inr ⟨c.dropLast, (List.dropLast_append_getLast? 10 (by simp [h])).symm⟩

/-- For chunks made of complete lines, the lines the non-streaming handler sees chunk
by chunk carry the events of the whole transcript. -/
theorem events_of_complete_chunks (parse : Str → Option JSValue) (chunks : List Str)
    (h : ∀ c ∈ chunks, completeLines c = true) :
    (chunks.flatMap splitLines).filterMap (decodeLine parse) = events parse chunks.flatten := by
  induction chunks with
  | nil => simp [events, splitLines, decodeLine_nil]
  | cons c cs ih =>
    have ih2 := ih (fun c hc => h c (List.mem_cons_of_mem _ hc))
    rcases completeLines_cases c (h c (List.mem_cons_self _ _)) with hc | ⟨p, hp⟩
    · subst hc
      simp only [List.flatMap_cons, List.filterMap_append, ih2, List.flatten_cons, List.nil_append]
      simp [splitLines, decodeLine_nil]
    · subst hp
      simp only [List.flatMap_cons, List.filterMap_append, ih2, List.flatten_cons,
        List.append_assoc, List.singleton_append, splitLines_append_newline, events]
      simp [splitLines, decodeLine_nil]

/-! ## Concrete runs -/

/-- C5. With mode `strip`, `transformThinking` maps
`<summary>skip</summary>> hello\n> world` to `hello\nworld`: the summary wrapper
goes with its content, and the quote prefix goes at the start and after the newline. -/
theorem transformThinking_strip_example :
    transformThinking (lit "strip") (lit "<summary>skip</summary>> hello\n> world")
      = lit "hello\nworld" := by
  decide

/-- C1. The streaming handler is not invariant under fragmentation. The transcript
made of a line with `"done": true` and a line with the content `Hi` gives, fed as one
chunk, the writes role, finish, `[DONE]` (the `return` of line 418 leaves the second
line unread); fed as two chunks cut between the lines it gives one more write, the
content delta `Hi`, behind `[DONE]`. -/
theorem stream_fragmentation_differs :
    [lit "data: \x7b\"data\":\x7b\"done\":true\x7d\x7d\ndata: \x7b\"data\":\x7b\"delta_content\":\"Hi\"\x7d\x7d\n"].flatten
      = [lit "data: \x7b\"data\":\x7b\"done\":true\x7d\x7d\n",
         lit "data: \x7b\"data\":\x7b\"delta_content\":\"Hi\"\x7d\x7d\n"].flatten
    ∧ handleStreamResponseWithIDs jsonParse (lit "think")
        [lit "data: \x7b\"data\":\x7b\"done\":true\x7d\x7d\ndata: \x7b\"data\":\x7b\"delta_content\":\"Hi\"\x7d\x7d\n"]
      = [Write.role, Write.finish, Write.done]
    ∧ handleStreamResponseWithIDs jsonParse (lit "think")
        [lit "data: \x7b\"data\":\x7b\"done\":true\x7d\x7d\n",
         lit "data: \x7b\"data\":\x7b\"delta_content\":\"Hi\"\x7d\x7d\n"]
      = [Write.role, Write.finish, Write.done, Write.content (.str (lit "Hi"))] :=
  ⟨by decide, by rfl, by rfl⟩

/-- C2. The streaming handler has no terminal latch. The call that reads the line
`data: {"data":{"done":true}}` writes finish and `[DONE]`; the next call, made with
the `buffer` the first one left, on a chunk with the content `Hi`, still writes a
content delta. -/
theorem onData_writes_after_done :
    onData jsonParse (lit "think") [] (lit "data: \x7b\"data\":\x7b\"done\":true\x7d\x7d\n")
      = ([], [Write.finish, Write.done])
    ∧ (onData jsonParse (lit "think")
        (onData jsonParse (lit "think") [] (lit "data: \x7b\"data\":\x7b\"done\":true\x7d\x7d\n")).1
        (lit "data: \x7b\"data\":\x7b\"delta_content\":\"Hi\"\x7d\x7d\n")).2
      = [Write.content (.str (lit "Hi"))] :=
  ⟨by rfl, by rfl⟩

/-- C3. The finish marker and `[DONE]` are written twice in one request when an
error event and a `done` event arrive in two chunks. -/
theorem stream_finish_twice :
    handleStreamResponseWithIDs jsonParse (lit "think")
        [lit "data: \x7b\"error\":\x7b\"code\":500,\"detail\":\"x\"\x7d\x7d\n",
         lit "data: \x7b\"data\":\x7b\"phase\":\"done\"\x7d\x7d\n"]
      = [Write.role, Write.finish, Write.done, Write.finish, Write.done] := by
  rfl

/-- C9. The non-streaming handler is not invariant under fragmentation: it splits
every chunk on its own and keeps no partial line. One event with the content `Hi`
gives the content `Hi` when it arrives in one chunk and the empty content when the
chunk boundary falls inside the line. -/
theorem nonStream_fragmentation_differs :
    [lit "data: \x7b\"data\":\x7b\"delta_content\":\"Hi\"\x7d\x7d\n"].flatten
      = [lit "data: \x7b\"data\":\x7b\"delta_con", lit "tent\":\"Hi\"\x7d\x7d\n"].flatten
    ∧ (handleNonStreamResponseWithIDs jsonParse (lit "think") (fun _ => none)
        [lit "data: \x7b\"data\":\x7b\"delta_content\":\"Hi\"\x7d\x7d\n"]).content = lit "Hi"
    ∧ (handleNonStreamResponseWithIDs jsonParse (lit "think") (fun _ => none)
        [lit "data: \x7b\"data\":\x7b\"delta_con", lit "tent\":\"Hi\"\x7d\x7d\n"]).content = [] :=
  ⟨by decide, by decide, by decide⟩

/-! ## One event of the streaming handler -/

/-- C6. A complete line `data: <json>` whose event carries no error signal, a
non-empty string `data.delta_content` and `data.phase` exactly `'thinking'`: the loop
body writes the one chunk `reasoning_content: transformThinking(delta_content)` when
the normalized text is not empty and no delta chunk when it is empty, followed only
by the finish marker and `[DONE]` when the event is also Terminal. The same writes
are those of the `'data'` callback fed the line and its terminator. -/
theorem thinking_fragment_writes (parse : Str → Option JSValue) (mode payload : Str)
    (u : JSValue) (s : Str) (hpay : payload ≠ []) (hnl : 10 ∉ payload)
    (hparse : parse payload = some u) (herr : hasErrorSignal u = false)
    (hdelta : get (get u (lit "data")) (lit "delta_content") = JSValue.str s) (hs : s ≠ [])
    (hphase : get (get u (lit "data")) (lit "phase") = JSValue.str (lit "thinking")) :
    (processLine parse mode (lit "data: " ++ payload)).1
        = (if transformThinking mode s = [] then []
            else [Write.reasoning (transformThinking mode s)]) ++ terminalWrites u
    ∧ onData parse mode [] (lit "data: " ++ payload ++ [10])
        = ([], (if transformThinking mode s = [] then []
            else [Write.reasoning (transformThinking mode s)]) ++ terminalWrites u) := by
  have htr : truthy (get (get u (lit "data")) (lit "delta_content")) = true := by
    rw [hdelta]; cases s with
    | nil => exact absurd rfl hs
    | cons a t => rfl
  have hr : readable u = true :=
    readable_of_truthy u (truthy_get_imp _ _ (truthy_get_imp _ _ htr))
  have hline : (processLine parse mode (lit "data: " ++ payload)).1
      = (if transformThinking mode s = [] then []
          else [Write.reasoning (transformThinking mode s)]) ++ terminalWrites u := by
    rw [processLine_data parse mode payload u hpay hparse, handleEvent_of_no_error mode u hr herr]
    have hth : isString (JSValue.str (lit "thinking")) (lit "thinking") = true := by decide
    have hts : truthy (JSValue.str s) = true := hdelta ▸ htr
    simp [contentWritesSpec, hphase, hth, hdelta, hts, callTransformThinking]
  refine ⟨hline, ?_⟩
  have hmem : 10 ∉ lit "data: " ++ payload := by
    rw [lit_data]
    simp only [List.mem_append, not_or]
    exact ⟨by decide, hnl⟩
  rw [onData_single_line parse mode _ hmem, hline]

/-- C6, the worked example: `delta_content` `<details>x</details>` with phase
`thinking` under mode `think` gives the reasoning delta `<span>x</span>`. -/
theorem thinking_fragment_writes_witness :
    jsonParse (lit "\x7b\"data\":\x7b\"delta_content\":\"<details>x</details>\",\"phase\":\"thinking\"\x7d\x7d")
      = some (.obj [(lit "data", .obj [(lit "delta_content", .str (lit "<details>x</details>")),
          (lit "phase", .str (lit "thinking"))])])
    ∧ onData jsonParse (lit "think") []
        (lit "data: " ++ lit "\x7b\"data\":\x7b\"delta_content\":\"<details>x</details>\",\"phase\":\"thinking\"\x7d\x7d" ++ [10])
      = ([], [Write.reasoning (lit "<span>x</span>")]) :=
  ⟨by rfl,
   (thinking_fragment_writes jsonParse (lit "think")
      (lit "\x7b\"data\":\x7b\"delta_content\":\"<details>x</details>\",\"phase\":\"thinking\"\x7d\x7d")
      (.obj [(lit "data", .obj [(lit "delta_content", .str (lit "<details>x</details>")),
          (lit "phase", .str (lit "thinking"))])])
      (lit "<details>x</details>") (by decide) (by decide) (by rfl) (by rfl) (by rfl) (by decide)
      (by rfl)).2.trans (by rfl)⟩

/-- C7. A complete line `data: <json>` whose event carries no error signal and a
non-empty string `data.delta_content`, with `data.phase` anything but `'thinking'`
(absent included): the loop body writes the one chunk `content: delta_content`, the
text as it came, followed only by the finish marker and `[DONE]` when the event is
also Terminal. The same writes are those of the `'data'` callback fed the line and
its terminator. -/
theorem answer_fragment_writes (parse : Str → Option JSValue) (mode payload : Str)
    (u : JSValue) (s : Str) (hpay : payload ≠ []) (hnl : 10 ∉ payload)
    (hparse : parse payload = some u) (herr : hasErrorSignal u = false)
    (hdelta : get (get u (lit "data")) (lit "delta_content") = JSValue.str s) (hs : s ≠ [])
    (hphase : isString (get (get u (lit "data")) (lit "phase")) (lit "thinking") = false) :
    (processLine parse mode (lit "data: " ++ payload)).1
        = [Write.content (JSValue.str s)] ++ terminalWrites u
    ∧ onData parse mode [] (lit "data: " ++ payload ++ [10])
        = ([], [Write.content (JSValue.str s)] ++ terminalWrites u) := by
  have htr : truthy (get (get u (lit "data")) (lit "delta_content")) = true := by
    rw [hdelta]; cases s with
    | nil => exact absurd rfl hs
    | cons a t => rfl
  have hr : readable u = true :=
    readable_of_truthy u (truthy_get_imp _ _ (truthy_get_imp _ _ htr))
  have hline : (processLine parse mode (lit "data: " ++ payload)).1
      = [Write.content (JSValue.str s)] ++ terminalWrites u := by
    rw [processLine_data parse mode payload u hpay hparse, handleEvent_of_no_error mode u hr herr]
    have hts : truthy (JSValue.str s) = true := hdelta ▸ htr
    simp [contentWritesSpec, hphase, hdelta, hts]
  refine ⟨hline, ?_⟩
  have hmem : 10 ∉ lit "data: " ++ payload := by
    rw [lit_data]
    simp only [List.mem_append, not_or]
    exact ⟨by decide, hnl⟩
  rw [onData_single_line parse mode _ hmem, hline]

/-- C7, the worked example: the event with `delta_content` `Hi` and phase `answer`
gives the content delta `Hi` and nothing else. -/
theorem answer_fragment_writes_witness :
    jsonParse (lit "\x7b\"data\":\x7b\"delta_content\":\"Hi\",\"phase\":\"answer\"\x7d\x7d")
      = some (.obj [(lit "data", .obj [(lit "delta_content", .str (lit "Hi")),
          (lit "phase", .str (lit "answer"))])])
    ∧ onData jsonParse (lit "think") []
        (lit "data: " ++ lit "\x7b\"data\":\x7b\"delta_content\":\"Hi\",\"phase\":\"answer\"\x7d\x7d" ++ [10])
      = ([], [Write.content (.str (lit "Hi"))]) :=
  ⟨by rfl,
   (answer_fragment_writes jsonParse (lit "think")
      (lit "\x7b\"data\":\x7b\"delta_content\":\"Hi\",\"phase\":\"answer\"\x7d\x7d")
      (.obj [(lit "data", .obj [(lit "delta_content", .str (lit "Hi")),
          (lit "phase", .str (lit "answer"))])])
      (lit "Hi") (by decide) (by decide) (by rfl) (by rfl) (by rfl) (by decide)
      (by rfl)).2.trans (by rfl)⟩

/-- C10. An error signal is detected (the condition of lines 312-314 holds) exactly
when one of `upstream.error`, `upstream.data.error`, `upstream.data.inner.error` is
truthy; `errObj` is then the first truthy one in that order, and for the line of such
an event the loop body writes the finish marker, then `[DONE]`, and returns: no
content or reasoning delta is written, whatever `delta_content` the event carries. -/
theorem error_signal_ends_stream (parse : Str → Option JSValue) (mode payload : Str)
    (u : JSValue) (hpay : payload ≠ []) (hnl : 10 ∉ payload) (hparse : parse payload = some u) :
    (errorCondition u = some true ↔ hasErrorSignal u = true)
    ∧ (hasErrorSignal u = true →
        errorObject u = some (firstError u) ∧ truthy (firstError u) = true
        ∧ processLine parse mode (lit "data: " ++ payload) = ([Write.finish, Write.done], true)
        ∧ onData parse mode [] (lit "data: " ++ payload ++ [10])
            = ([], [Write.finish, Write.done])) := by
  refine ⟨?_, fun h => ?_⟩
  · cases hr : readable u
    · simp [errorCondition_of_not_readable u hr, hasErrorSignal_of_not_readable u hr]
    · simp [errorCondition_eq u hr]
  · have hline : processLine parse mode (lit "data: " ++ payload)
        = ([Write.finish, Write.done], true) := by
      rw [processLine_data parse mode payload u hpay hparse, handleEvent_of_error mode u h]
      rfl
    have hmem : 10 ∉ lit "data: " ++ payload := by
      rw [lit_data]
      simp only [List.mem_append, not_or]
      exact ⟨by decide, hnl⟩
    refine ⟨(errorObject_eq u h).1, (errorObject_eq u h).2, hline, ?_⟩
    rw [onData_single_line parse mode _ hmem, hline]

/-- C10, an example: an event with a truthy `data.inner.error` and a `delta_content`
ends the stream and its content is not written. -/
theorem error_signal_ends_stream_witness :
    jsonParse (lit "\x7b\"data\":\x7b\"delta_content\":\"Hi\",\"inner\":\x7b\"error\":\x7b\"code\":500,\"detail\":\"x\"\x7d\x7d\x7d\x7d")
      = some (.obj [(lit "data", .obj [(lit "delta_content", .str (lit "Hi")),
          (lit "inner", .obj [(lit "error", .obj [(lit "code", .num ⟨false, 500, 0⟩),
            (lit "detail", .str (lit "x"))])])])])
    ∧ onData jsonParse (lit "think") []
        (lit "data: " ++ lit "\x7b\"data\":\x7b\"delta_content\":\"Hi\",\"inner\":\x7b\"error\":\x7b\"code\":500,\"detail\":\"x\"\x7d\x7d\x7d\x7d" ++ [10])
      = ([], [Write.finish, Write.done]) :=
  ⟨by rfl,
   ((error_signal_ends_stream jsonParse (lit "think")
      (lit "\x7b\"data\":\x7b\"delta_content\":\"Hi\",\"inner\":\x7b\"error\":\x7b\"code\":500,\"detail\":\"x\"\x7d\x7d\x7d\x7d")
      (.obj [(lit "data", .obj [(lit "delta_content", .str (lit "Hi")),
          (lit "inner", .obj [(lit "error", .obj [(lit "code", .num ⟨false, 500, 0⟩),
            (lit "detail", .str (lit "x"))])])])])
      (by decide) (by decide) (by rfl)).2 (by rfl)).2.2.2⟩

/-! ## The aggregated response -/

/-- C8, as stated, fails. The chunk is made of two complete lines: a thinking-phase
event whose `delta_content` is the number `5` with `"done": true`, then an answer
event with the content `X`. The first event is Terminal, so by the claim the second
contributes nothing and the content is empty. In the code `out.replace` throws on the
number, the `catch` of line 516 skips the rest of the iteration and with it the
`done` check of line 511, and the response carries `X`. -/
theorem nonStream_content_counterexample :
    completeLines (lit "data: \x7b\"data\":\x7b\"delta_content\":5,\"phase\":\"thinking\",\"done\":true\x7d\x7d\ndata: \x7b\"data\":\x7b\"delta_content\":\"X\"\x7d\x7d\n") = true
    ∧ (handleNonStreamResponseWithIDs jsonParse (lit "think") (fun _ => none)
        [lit "data: \x7b\"data\":\x7b\"delta_content\":5,\"phase\":\"thinking\",\"done\":true\x7d\x7d\ndata: \x7b\"data\":\x7b\"delta_content\":\"X\"\x7d\x7d\n"]).content
        = lit "X"
    ∧ aggregatedContent (lit "think") (fun _ => none)
        (events jsonParse
          [lit "data: \x7b\"data\":\x7b\"delta_content\":5,\"phase\":\"thinking\",\"done\":true\x7d\x7d\ndata: \x7b\"data\":\x7b\"delta_content\":\"X\"\x7d\x7d\n"].flatten)
        = []
    ∧ handleNonStreamResponseWithIDs jsonParse (lit "think") (fun _ => none)
        [lit "data: \x7b\"data\":\x7b\"delta_content\":5,\"phase\":\"thinking\",\"done\":true\x7d\x7d\ndata: \x7b\"data\":\x7b\"delta_content\":\"X\"\x7d\x7d\n"]
      ≠ ⟨aggregatedContent (lit "think") (fun _ => none)
          (events jsonParse
            [lit "data: \x7b\"data\":\x7b\"delta_content\":5,\"phase\":\"thinking\",\"done\":true\x7d\x7d\ndata: \x7b\"data\":\x7b\"delta_content\":\"X\"\x7d\x7d\n"].flatten),
          lit "stop", 0, 0, 0⟩ :=
  ⟨by decide, by decide, by decide, by decide⟩

/-- C8, amended. For chunks each made of complete lines, in which the content of no
event makes the handler throw (no truthy `delta_content` that is not a string comes
with the phase `thinking`, or has a conversion to a string by `+=` that throws), the
response built at stream end carries the concatenation, in arrival order, of the
normalized text of each thinking fragment and the text of each answer fragment as it
came, over the events up to and including the first one whose `data.done` is truthy
or whose `data.phase` is `'done'`; later events contribute nothing, and
`finish_reason` is `'stop'` with an all-zero usage record whether or not such an
event was seen. -/
theorem nonStream_content (parse : Str → Option JSValue) (mode : Str) (toStr : JSValue → Option Str)
    (chunks : List Str) (hlines : ∀ c ∈ chunks, completeLines c = true)
    (htext : ∀ u ∈ events parse chunks.flatten, contentConverts toStr u = true) :
    handleNonStreamResponseWithIDs parse mode toStr chunks
      = ⟨aggregatedContent mode toStr (events parse chunks.flatten), lit "stop", 0, 0, 0⟩ := by
  have hev := events_of_complete_chunks parse chunks hlines
  have hfull : (collect parse mode toStr chunks).fullContent
      = aggregatedContent mode toStr (events parse chunks.flatten) := by
    unfold collect
    rw [collect_eq_resume]
    simp only [resume]
    rw [if_neg (by simp), accumulateLines_fullContent parse mode toStr _ [] (by rw [hev]; exact htext),
      hev, List.nil_append]
  simp only [handleNonStreamResponseWithIDs, onEnd, hfull]

/-- C8, the worked example: a thinking fragment, then an event with `"done": true` and
no content, then a further event; the response carries the normalized thinking
fragment and nothing else. All contents are strings, no conversion is made. -/
theorem nonStream_content_witness :
    handleNonStreamResponseWithIDs jsonParse (lit "think") (fun _ => none)
        [lit "data: \x7b\"data\":\x7b\"delta_content\":\"<details>x</details>\",\"phase\":\"thinking\"\x7d\x7d\n",
         lit "data: \x7b\"data\":\x7b\"done\":true\x7d\x7d\ndata: \x7b\"data\":\x7b\"delta_content\":\"late\"\x7d\x7d\n"]
      = ⟨lit "<span>x</span>", lit "stop", 0, 0, 0⟩ :=
  (nonStream_content jsonParse (lit "think") (fun _ => none)
    [lit "data: \x7b\"data\":\x7b\"delta_content\":\"<details>x</details>\",\"phase\":\"thinking\"\x7d\x7d\n",
     lit "data: \x7b\"data\":\x7b\"done\":true\x7d\x7d\ndata: \x7b\"data\":\x7b\"delta_content\":\"late\"\x7d\x7d\n"]
    (by decide) (by decide)).trans (by decide)

/-- An answer event whose `delta_content` is an object with an own property
`toString` that is not callable, with `"done": true`, then an answer event with the
content `X`. The conversion in `fullContent += out` (line 507) throws, the `catch`
of line 516 drops the first event with its `done` flag, and the response carries
`X`; the first event is one that `contentConverts` leaves out. -/
theorem nonStream_conversion_throws :
    (handleNonStreamResponseWithIDs jsonParse (lit "think") (fun _ => none)
        [lit "data: \x7b\"data\":\x7b\"delta_content\":\x7b\"toString\":1\x7d,\"done\":true\x7d\x7d\ndata: \x7b\"data\":\x7b\"delta_content\":\"X\"\x7d\x7d\n"]).content
      = lit "X"
    ∧ (events jsonParse
        (lit "data: \x7b\"data\":\x7b\"delta_content\":\x7b\"toString\":1\x7d,\"done\":true\x7d\x7d\ndata: \x7b\"data\":\x7b\"delta_content\":\"X\"\x7d\x7d\n")).map
          (contentConverts (fun _ => none))
      = [false, true] :=
  ⟨by decide, by decide⟩

/-! ## Applying the normalizer twice -/

/-- C4, as stated, fails under each of the three modes: on `> > a` the first
application removes the leading quote prefix and returns `> a`, the second removes
the next one and returns `a`. -/
theorem transformThinking_not_idempotent :
    transformThinking (lit "think") (transformThinking (lit "think") (lit "> > a"))
      ≠ transformThinking (lit "think") (lit "> > a")
    ∧ transformThinking (lit "strip") (transformThinking (lit "strip") (lit "> > a"))
      ≠ transformThinking (lit "strip") (lit "> > a")
    ∧ transformThinking (lit "raw") (transformThinking (lit "raw") (lit "> > a"))
      ≠ transformThinking (lit "raw") (lit "> > a") :=
  ⟨by decide, by decide, by decide⟩

/-- C4, amended. For every input `s` and every mode, applying `transformThinking` to
its own result changes nothing, provided none of the expressions the normalizer
rewrites under that mode still matches in the result. -/
theorem transformThinking_idempotent (mode s : Str)
    (hfree : patternFree mode (transformThinking mode s) = true) :
    transformThinking mode (transformThinking mode s) = transformThinking mode s :=
  transformThinking_fixed mode _ hfree (trim_transformThinking mode s)

/-- C4, an example: under mode `think` the result `<span>x</span>` of normalizing
`<details>x</details>` is left unchanged by a second application. -/
theorem transformThinking_idempotent_witness :
    patternFree (lit "think") (transformThinking (lit "think") (lit " <details open>x</details>\n")) = true
    ∧ transformThinking (lit "think") (lit " <details open>x</details>\n") = lit "<span>x</span>"
    ∧ transformThinking (lit "think")
        (transformThinking (lit "think") (lit " <details open>x</details>\n"))
      = transformThinking (lit "think") (lit " <details open>x</details>\n") :=
  ⟨by decide, by decide,
   transformThinking_idempotent (lit "think") (lit " <details open>x</details>\n") (by decide)⟩

/-! ## The two copies of the normalizer -/

/-- C14. The transformation written out in the non-streaming handler (lines 484-503)
returns, for every input string and every value of `THINK_TAGS_MODE`, the string that
`transformThinking` of the streaming handler returns; and on a decoded value that is
not a string both throw. -/
theorem inline_normalizer_agrees (mode : Str) :
    (∀ s : Str, inlineThinking mode s = transformThinking mode s)
    ∧ (∀ v : JSValue, callInlineThinking mode v = (callTransformThinking mode v).map JSValue.str) := by
  refine ⟨fun s => ?_, fun v => ?_⟩
  · simp only [inlineThinking, transformThinking, stripQuotes, applyMode, cleanTags]
  · cases v <;> simp [callInlineThinking, callTransformThinking, inlineThinking, transformThinking,
      stripQuotes, applyMode, cleanTags]

/-! ## Lines that carry no event -/

theorem processLine_of_ignorable (parse : Str → Option JSValue) (mode l : Str)
    (h : startsWith (lit "data: ") l = false ∨ l.drop 6 = [] ∨ parse (l.drop 6) = none) :
    processLine parse mode l = ([], false) := by
  unfold processLine
  rcases h with h | h | h
  · simp [h]
  · simp [h]
  · by_cases h1 : (!startsWith (lit "data: ") l) = true
    · simp [h1]
    · by_cases h2 : (l.drop 6).isEmpty = true
      · simp [h1, h2]
      · simp [h1, h2, h]

theorem processLines_skip (parse : Str → Option JSValue) (mode l : Str) (xs ys : List Str)
    (h : processLine parse mode l = ([], false)) :
    processLines parse mode (xs ++ l :: ys) = processLines parse mode (xs ++ ys) := by
  induction xs with
  | nil => simp [processLines, h]
  | cons x xs ih => rw [List.cons_append, List.cons_append, processLines, processLines, ih]

theorem getLastD_append_of_ne_nil (xs ys : List Str) (d : Str) (h : ys ≠ []) :
    (xs ++ ys).getLastD d = ys.getLastD [] := by
  cases ys with
  | nil => exact absurd rfl h
  | cons a t =>
    rw [List.getLastD_eq_getLast?, List.getLastD_eq_getLast?, List.getLast?_append]
    cases hl : (a :: t).getLast? with
    | none => simp at hl
    | some v => rfl

theorem feed_append (parse : Str → Option JSValue) (mode : Str) (xs ys : List Str) (b : Str) :
    feed parse mode b (xs ++ ys)
      = ((feed parse mode (feed parse mode b xs).1 ys).1,
         (feed parse mode b xs).2 ++ (feed parse mode (feed parse mode b xs).1 ys).2) := by
  induction xs generalizing b with
  | nil => simp [feed]
  | cons x xs ih => simp [feed, ih, List.append_assoc]

theorem onData_insert_line (parse : Str → Option JSValue) (mode l : Str)
    (h : processLine parse mode l = ([], false)) (hnl : 10 ∉ l) (buffer c1 c2 : Str)
    (hc : completeLines (buffer ++ c1) = true) :
    onData parse mode buffer (c1 ++ l ++ 10 :: c2) = onData parse mode buffer (c1 ++ c2) := by
  have hne := splitLines_ne_nil c2
  have e1 : buffer ++ (c1 ++ l ++ 10 :: c2) = (buffer ++ c1) ++ (l ++ 10 :: c2) := by simp
  have e2 : buffer ++ (c1 ++ c2) = (buffer ++ c1) ++ c2 := by simp
  have hl : splitLines (l ++ 10 :: c2) = l :: splitLines c2 := by
    rw [splitLines_append_newline, splitLines_of_not_mem l hnl]; rfl
  have key : ∀ ps : List Str,
      ((ps ++ l :: splitLines c2).getLastD [],
        processLines parse mode (ps ++ l :: splitLines c2).dropLast)
      = ((ps ++ splitLines c2).getLastD [],
        processLines parse mode (ps ++ splitLines c2).dropLast) := by
    intro ps
    have d1 : (ps ++ l :: splitLines c2).dropLast = ps ++ l :: (splitLines c2).dropLast := by
      rw [List.dropLast_append_of_ne_nil _ (by simp)]
      cases hs : splitLines c2 with
      | nil => exact absurd hs hne
      | cons a t => simp [List.dropLast]
    have d2 : (ps ++ splitLines c2).dropLast = ps ++ (splitLines c2).dropLast := by
      rw [List.dropLast_append_of_ne_nil _ hne]
    have g1 : (ps ++ l :: splitLines c2).getLastD [] = (splitLines c2).getLastD [] := by
      have := getLastD_append_of_ne_nil (ps ++ [l]) (splitLines c2) [] hne
      simpa using this
    rw [d1, d2, g1, getLastD_append_of_ne_nil ps _ [] hne, processLines_skip parse mode l _ _ h]
  unfold onData
  rw [e1, e2]
  rcases completeLines_cases _ hc with h0 | ⟨p, hp⟩
  · rw [h0, List.nil_append, List.nil_append, hl]
    exact key []
  · rw [hp]
    have s1 : splitLines ((p ++ [10]) ++ (l ++ 10 :: c2)) = splitLines p ++ l :: splitLines c2 := by
      rw [List.append_assoc, List.singleton_append, splitLines_append_newline, hl]
    have s2 : splitLines ((p ++ [10]) ++ c2) = splitLines p ++ splitLines c2 := by
      rw [List.append_assoc, List.singleton_append, splitLines_append_newline]
    rw [s1, s2]
    exact key (splitLines p)

/-- C11. A line that does not begin with `data: `, or whose payload is empty, or
whose payload the decoder rejects: the loop body writes nothing for it and goes on;
and such a line put with its terminator at a line boundary of what a call of the
`'data'` callback reads, or of any chunk of a request, leaves the writes and the
retained `buffer` as they were. -/
theorem ignorable_line_writes_nothing (parse : Str → Option JSValue) (mode l : Str)
    (hl : startsWith (lit "data: ") l = false ∨ l.drop 6 = [] ∨ parse (l.drop 6) = none)
    (hnl : 10 ∉ l) :
    processLine parse mode l = ([], false)
    ∧ (∀ buffer c1 c2 : Str, completeLines (buffer ++ c1) = true →
        onData parse mode buffer (c1 ++ l ++ 10 :: c2) = onData parse mode buffer (c1 ++ c2))
    ∧ (∀ (before after : List Str) (c1 c2 : Str),
        completeLines ((feed parse mode [] before).1 ++ c1) = true →
        feed parse mode [] (before ++ (c1 ++ l ++ 10 :: c2) :: after)
          = feed parse mode [] (before ++ (c1 ++ c2) :: after)
        ∧ handleStreamResponseWithIDs parse mode (before ++ (c1 ++ l ++ 10 :: c2) :: after)
          = handleStreamResponseWithIDs parse mode (before ++ (c1 ++ c2) :: after)) := by
  have h := processLine_of_ignorable parse mode l hl
  have hon := onData_insert_line parse mode l h hnl
  refine ⟨h, hon, fun before after c1 c2 hc => ?_⟩
  have hf : feed parse mode [] (before ++ (c1 ++ l ++ 10 :: c2) :: after)
      = feed parse mode [] (before ++ (c1 ++ c2) :: after) := by
    rw [feed_append, feed_append]
    simp only [feed, hon _ c1 c2 hc]
  exact ⟨hf, by simp only [handleStreamResponseWithIDs, hf]⟩

/-- C11, two examples: a line without the prefix `data: ` and a line whose payload is
not valid JSON, each put between the lines of two answer events. -/
theorem ignorable_line_writes_nothing_witness :
    handleStreamResponseWithIDs jsonParse (lit "think")
        [lit "data: \x7b\"data\":\x7b\"delta_content\":\"A\"\x7d\x7d\n" ++ lit "event: message"
          ++ 10 :: lit "data: \x7b\"data\":\x7b\"delta_content\":\"B\"\x7d\x7d\n"]
      = [Write.role, Write.content (.str (lit "A")), Write.content (.str (lit "B"))]
    ∧ handleStreamResponseWithIDs jsonParse (lit "think")
        [lit "data: \x7b\"data\":\x7b\"delta_content\":\"A\"\x7d\x7d\n" ++ lit "data: \x7b\"data\":"
          ++ 10 :: lit "data: \x7b\"data\":\x7b\"delta_content\":\"B\"\x7d\x7d\n"]
      = [Write.role, Write.content (.str (lit "A")), Write.content (.str (lit "B"))] :=
  ⟨(((ignorable_line_writes_nothing jsonParse (lit "think") (lit "event: message")
        (Or.inl (by decide)) (by decide)).2.2 [] []
        (lit "data: \x7b\"data\":\x7b\"delta_content\":\"A\"\x7d\x7d\n")
        (lit "data: \x7b\"data\":\x7b\"delta_content\":\"B\"\x7d\x7d\n") (by decide)).2).trans
      (by rfl),
   (((ignorable_line_writes_nothing jsonParse (lit "think") (lit "data: \x7b\"data\":")
        (Or.inr (Or.inr (by rfl))) (by decide)).2.2 [] []
        (lit "data: \x7b\"data\":\x7b\"delta_content\":\"A\"\x7d\x7d\n")
        (lit "data: \x7b\"data\":\x7b\"delta_content\":\"B\"\x7d\x7d\n") (by decide)).2).trans
      (by rfl)⟩

/-! ## Content and terminal status on one event -/

theorem contentWritesSpec_of_text (mode : Str) (u : JSValue) (h : thinkingIsText u = true) :
    contentWritesSpec mode u = some (deltaWrites mode u) := by
  unfold contentWritesSpec deltaWrites
  unfold thinkingIsText at h
  cases hdc : truthy (get (get u (lit "data")) (lit "delta_content"))
  · simp
  · cases hph : isString (get (get u (lit "data")) (lit "phase")) (lit "thinking")
    · simp
    · cases hv : get (get u (lit "data")) (lit "delta_content") <;>
        simp_all [callTransformThinking]

theorem deltaWrites_isDelta (mode : Str) (u : JSValue) :
    ∀ w ∈ deltaWrites mode u, w.isDelta = true := by
  intro w hw
  unfold deltaWrites at hw
  split at hw
  · split at hw
    · split at hw
      · split at hw
        · simp at hw
        · simp only [List.mem_singleton] at hw; subst hw; rfl
      · simp at hw
    · simp only [List.mem_singleton] at hw; subst hw; rfl
  · simp at hw

/-- C12, as stated, fails. The event of the line carries no error signal and
`"done": true`, with the phase `thinking` and the number `5` as `delta_content`:
`transformThinking(5)` throws inside the `try`, the `catch` of line 420 ends the
iteration before the `done` check of line 395, and nothing is written. -/
theorem terminal_after_content_counterexample :
    jsonParse (lit "\x7b\"data\":\x7b\"delta_content\":5,\"phase\":\"thinking\",\"done\":true\x7d\x7d")
      = some (.obj [(lit "data", .obj [(lit "delta_content", .num ⟨false, 5, 0⟩),
          (lit "phase", .str (lit "thinking")), (lit "done", .bool true)])])
    ∧ hasErrorSignal (.obj [(lit "data", .obj [(lit "delta_content", .num ⟨false, 5, 0⟩),
          (lit "phase", .str (lit "thinking")), (lit "done", .bool true)])]) = false
    ∧ isTerminal (.obj [(lit "data", .obj [(lit "delta_content", .num ⟨false, 5, 0⟩),
          (lit "phase", .str (lit "thinking")), (lit "done", .bool true)])]) = true
    ∧ processLine jsonParse (lit "think")
        (lit "data: \x7b\"data\":\x7b\"delta_content\":5,\"phase\":\"thinking\",\"done\":true\x7d\x7d")
      = ([], false) :=
  ⟨by rfl, by rfl, by rfl, by rfl⟩

/-- C12, amended. For every decoded event without an error signal that does not
combine the phase `thinking` with a truthy `delta_content` that is not a string: when
`data.done` is truthy or `data.phase` is `'done'`, the loop body writes the delta
chunk of the event's content, if it has one, then the finish marker, then `[DONE]`,
and returns, whatever the content is. -/
theorem terminal_after_content (parse : Str → Option JSValue) (mode payload : Str)
    (u : JSValue) (hpay : payload ≠ []) (hparse : parse payload = some u)
    (herr : hasErrorSignal u = false) (hterm : isTerminal u = true)
    (htext : thinkingIsText u = true) :
    processLine parse mode (lit "data: " ++ payload)
      = (deltaWrites mode u ++ [Write.finish, Write.done], true)
    ∧ (∀ w ∈ deltaWrites mode u, w.isDelta = true) := by
  have hr : readable u = true := by
    cases hr : readable u
    · rw [isTerminal_of_not_readable u hr] at hterm; cases hterm
    · rfl
  refine ⟨?_, deltaWrites_isDelta mode u⟩
  rw [processLine_data parse mode payload u hpay hparse, handleEvent_of_no_error mode u hr herr,
    contentWritesSpec_of_text mode u htext]
  simp [terminalWrites, hterm]

/-- C12, an example: an answer event with the content `bye` and `"done": true` gives
the content delta, then the finish marker, then `[DONE]`. -/
theorem terminal_after_content_witness :
    processLine jsonParse (lit "think")
        (lit "data: " ++ lit "\x7b\"data\":\x7b\"delta_content\":\"bye\",\"done\":true\x7d\x7d")
      = ([Write.content (.str (lit "bye")), Write.finish, Write.done], true) :=
  (terminal_after_content jsonParse (lit "think")
    (lit "\x7b\"data\":\x7b\"delta_content\":\"bye\",\"done\":true\x7d\x7d")
    (.obj [(lit "data", .obj [(lit "delta_content", .str (lit "bye")), (lit "done", .bool true)])])
    (by decide) (by rfl) (by rfl) (by rfl) (by rfl)).1.trans (by rfl)

/-! ## One call of the streaming `'data'` callback -/

theorem handleEvent_shape (mode : Str) (u : JSValue) :
    ∃ ds : List Write, (∀ w ∈ ds, w.isDelta = true) ∧
      ((handleEvent mode u).getD ([], false) = (ds, false) ∨
        (handleEvent mode u).getD ([], false) = (ds ++ [Write.finish, Write.done], true)) := by
  cases hr : readable u
  · exact ⟨[], by simp, Or.inl (by simp [handleEvent_of_not_readable mode u hr])⟩
  · cases he : hasErrorSignal u
    · rw [handleEvent_of_no_error mode u hr he]
      cases hc : contentWritesSpec mode u with
      | none => exact ⟨[], by simp, Or.inl (by simp)⟩
      | some ws =>
        have hws : ∀ w ∈ ws, w.isDelta = true := by
          intro w hw
          unfold contentWritesSpec at hc
          split at hc
          · split at hc
            · cases hv : callTransformThinking mode (get (get u (lit "data")) (lit "delta_content")) with
              | none => simp [hv] at hc
              | some out =>
                simp only [hv, Option.map_some', Option.some.injEq] at hc
                subst hc
                split at hw
                · simp at hw
                · simp only [List.mem_singleton] at hw; subst hw; rfl
            · simp only [Option.some.injEq] at hc
              subst hc
              simp only [List.mem_singleton] at hw; subst hw; rfl
          · simp only [Option.some.injEq] at hc
            subst hc
            simp at hw
        cases ht : isTerminal u
        · exact ⟨ws, hws, Or.inl (by simp [terminalWrites, ht])⟩
        · exact ⟨ws, hws, Or.inr (by simp [terminalWrites, ht])⟩
    · exact ⟨[], by simp, Or.inr (by simp [handleEvent_of_error mode u he])⟩

theorem processLine_shape (parse : Str → Option JSValue) (mode l : Str) :
    ∃ ds : List Write, (∀ w ∈ ds, w.isDelta = true) ∧
      (processLine parse mode l = (ds, false) ∨
        processLine parse mode l = (ds ++ [Write.finish, Write.done], true)) := by
  unfold processLine
  by_cases h1 : (!startsWith (lit "data: ") l) = true
  · exact ⟨[], by simp, Or.inl (by simp [h1])⟩
  · by_cases h2 : (l.drop 6).isEmpty = true
    · exact ⟨[], by simp, Or.inl (by simp [h1, h2])⟩
    · simp only [h1, h2, if_false]
      cases hp : parse (l.drop 6) with
      | none => exact ⟨[], by simp, Or.inl rfl⟩
      | some u =>
        obtain ⟨ds, hds, h⟩ := handleEvent_shape mode u
        refine ⟨ds, hds, ?_⟩
        cases hh : handleEvent mode u with
        | none => simpa [hh] using h
        | some r => simpa [hh] using h

theorem processLines_shape (parse : Str → Option JSValue) (mode : Str) (ls : List Str) :
    ∃ ds : List Write, (∀ w ∈ ds, w.isDelta = true) ∧
      (processLines parse mode ls = ds ∨
        processLines parse mode ls = ds ++ [Write.finish, Write.done]) := by
  induction ls with
  | nil => exact ⟨[], by simp, Or.inl rfl⟩
  | cons l rest ih =>
    obtain ⟨d1, hd1, h1⟩ := processLine_shape parse mode l
    obtain ⟨d2, hd2, h2⟩ := ih
    unfold processLines
    rcases h1 with h1 | h1
    · refine ⟨d1 ++ d2, ?_, ?_⟩
      · intro w hw
        rcases List.mem_append.1 hw with hw | hw
        · exact hd1 w hw
        · exact hd2 w hw
      · rcases h2 with h2 | h2
        · exact Or.inl (by simp [h1, h2])
        · exact Or.inr (by simp [h1, h2])
    · exact ⟨d1, hd1, Or.inr (by simp [h1])⟩

theorem processLines_return (parse : Str → Option JSValue) (mode t : Str) (xs ys : List Str)
    (h : (processLine parse mode t).2 = true) :
    processLines parse mode (xs ++ t :: ys) = processLines parse mode (xs ++ [t]) := by
  induction xs with
  | nil => simp [processLines, h]
  | cons x xs ih => rw [List.cons_append, List.cons_append, processLines, processLines, ih]

theorem onData_of_last_newline (parse : Str → Option JSValue) (mode buffer chunk pre tail : Str)
    (h : buffer ++ chunk = pre ++ 10 :: tail) (hnl : 10 ∉ tail) :
    onData parse mode buffer chunk = (tail, processLines parse mode (splitLines pre)) := by
  unfold onData
  rw [h, splitLines_append_newline, splitLines_of_not_mem tail hnl]
  simp [List.dropLast_append_of_ne_nil, getLastD_append_of_ne_nil]

theorem onData_of_no_newline (parse : Str → Option JSValue) (mode buffer chunk : Str)
    (hnl : 10 ∉ buffer ++ chunk) :
    onData parse mode buffer chunk = (buffer ++ chunk, []) := by
  unfold onData
  rw [splitLines_of_not_mem _ hnl]
  simp [processLines]

/-- C17. One call of the streaming `'data'` callback, for every `buffer` and chunk:
its writes are delta chunks alone, or delta chunks followed by one finish marker and
one `[DONE]` with nothing behind them; the lines behind the line at which the loop
returned are not processed; and the new `buffer` is the text behind the last newline
of what was read (all of it when there is no newline), so it holds none of those
lines, whether the loop returned or not. -/
theorem onData_one_call (parse : Str → Option JSValue) (mode buffer chunk : Str) :
    (∃ ds : List Write, (∀ w ∈ ds, w.isDelta = true) ∧
      ((onData parse mode buffer chunk).2 = ds ∨
        (onData parse mode buffer chunk).2 = ds ++ [Write.finish, Write.done]))
    ∧ (∀ (t : Str) (xs ys : List Str), (processLine parse mode t).2 = true →
        processLines parse mode (xs ++ t :: ys) = processLines parse mode (xs ++ [t]))
    ∧ (∀ pre tail : Str, buffer ++ chunk = pre ++ 10 :: tail → 10 ∉ tail →
        onData parse mode buffer chunk = (tail, processLines parse mode (splitLines pre)))
    ∧ (10 ∉ buffer ++ chunk → onData parse mode buffer chunk = (buffer ++ chunk, [])) :=
  ⟨processLines_shape parse mode _,
   fun t xs ys h => processLines_return parse mode t xs ys h,
   fun pre tail h hnl => onData_of_last_newline parse mode buffer chunk pre tail h hnl,
   fun hnl => onData_of_no_newline parse mode buffer chunk hnl⟩

/-- C17, an example: a chunk with a content line, a `done` line, a further content
line and an unterminated tail. The writes stop at `[DONE]`, the third line is
dropped, and `buffer` keeps the tail alone. -/
theorem onData_one_call_witness :
    onData jsonParse (lit "think") []
        (lit "data: \x7b\"data\":\x7b\"delta_content\":\"A\"\x7d\x7d\ndata: \x7b\"data\":\x7b\"done\":true\x7d\x7d\ndata: \x7b\"data\":\x7b\"delta_content\":\"B\"\x7d\x7d\ndata: \x7b\"da")
      = (lit "data: \x7b\"da", [Write.content (.str (lit "A")), Write.finish, Write.done]) :=
  ((onData_one_call jsonParse (lit "think") []
      (lit "data: \x7b\"data\":\x7b\"delta_content\":\"A\"\x7d\x7d\ndata: \x7b\"data\":\x7b\"done\":true\x7d\x7d\ndata: \x7b\"data\":\x7b\"delta_content\":\"B\"\x7d\x7d\ndata: \x7b\"da")).2.2.1
    (lit "data: \x7b\"data\":\x7b\"delta_content\":\"A\"\x7d\x7d\ndata: \x7b\"data\":\x7b\"done\":true\x7d\x7d\ndata: \x7b\"data\":\x7b\"delta_content\":\"B\"\x7d\x7d")
    (lit "data: \x7b\"da") (by decide) (by decide)).trans (by rfl)

/-! ## The unterminated tail -/

theorem newline_cases (s : Str) :
    10 ∉ s ∨ ∃ pre tail : Str, s = pre ++ 10 :: tail ∧ 10 ∉ tail := by
  induction s with
  | nil => exact Or.inl (by simp)
  | cons c cs ih =>
    rcases ih with h | ⟨pre, tail, h, ht⟩
    · by_cases hc : c = 10
      · exact Or.inr ⟨[], cs, by simp [hc], h⟩
      · refine Or.inl ?_
        simp only [List.mem_cons, not_or]
        exact ⟨fun e => hc e.symm, h⟩
    · exact Or.inr ⟨c :: pre, tail, by simp [h], ht⟩

theorem onData_buffer_no_newline (parse : Str → Option JSValue) (mode buffer chunk : Str) :
    10 ∉ (onData parse mode buffer chunk).1 := by
  rcases newline_cases (buffer ++ chunk) with h | ⟨pre, tail, h, ht⟩
  · rw [onData_of_no_newline parse mode buffer chunk h]; exact h
  · rw [onData_of_last_newline parse mode buffer chunk pre tail h ht]; exact ht

theorem onData_append_tail (parse : Str → Option JSValue) (mode buffer chunk x : Str)
    (hx : 10 ∉ x) :
    onData parse mode buffer (chunk ++ x)
      = ((onData parse mode buffer chunk).1 ++ x, (onData parse mode buffer chunk).2) := by
  rcases newline_cases (buffer ++ chunk) with h | ⟨pre, tail, h, ht⟩
  · have h2 : 10 ∉ buffer ++ (chunk ++ x) := by
      rw [← List.append_assoc]
      simp only [List.mem_append, not_or] at h ⊢
      exact ⟨h, hx⟩
    rw [onData_of_no_newline parse mode buffer chunk h,
      onData_of_no_newline parse mode buffer (chunk ++ x) h2]
    simp
  · have h2 : buffer ++ (chunk ++ x) = pre ++ 10 :: (tail ++ x) := by
      rw [← List.append_assoc, h]; simp
    have ht2 : 10 ∉ tail ++ x := by
      simp only [List.mem_append, not_or]
      exact ⟨ht, hx⟩
    rw [onData_of_last_newline parse mode buffer chunk pre tail h ht,
      onData_of_last_newline parse mode buffer (chunk ++ x) pre (tail ++ x) h2 ht2]

theorem feed_of_no_newline (parse : Str → Option JSValue) (mode : Str) (ts : List Str)
    (hts : ∀ t ∈ ts, 10 ∉ t) (b : Str) (hb : 10 ∉ b) :
    feed parse mode b ts = (b ++ ts.flatten, []) := by
  induction ts generalizing b with
  | nil => simp [feed]
  | cons t ts ih =>
    have ht : 10 ∉ b ++ t := by
      simp only [List.mem_append, not_or]
      exact ⟨hb, hts t (List.mem_cons_self _ _)⟩
    simp only [feed, onData_of_no_newline parse mode b t ht,
      ih (fun t ht => hts t (List.mem_cons_of_mem _ ht)) (b ++ t) ht]
    simp

/-- C18. The text behind the last newline of the transcript does not reach the
parser: for every chunk sequence, a newline-free text `x` at the end of a chunk,
followed by any number of newline-free chunks, changes no write; it stays in
`buffer`, which the `'end'` callback (lines 426-429) does not read. -/
theorem unterminated_tail_ignored (parse : Str → Option JSValue) (mode : Str)
    (chunks : List Str) (c x : Str) (ts : List Str) (hx : 10 ∉ x) (hts : ∀ t ∈ ts, 10 ∉ t) :
    handleStreamResponseWithIDs parse mode (chunks ++ (c ++ x) :: ts)
      = handleStreamResponseWithIDs parse mode (chunks ++ [c])
    ∧ (feed parse mode [] (chunks ++ (c ++ x) :: ts)).1
      = (feed parse mode [] (chunks ++ [c])).1 ++ x ++ ts.flatten := by
  have hb : 10 ∉ (onData parse mode (feed parse mode [] chunks).1 c).1 ++ x := by
    simp only [List.mem_append, not_or]
    exact ⟨onData_buffer_no_newline parse mode _ c, hx⟩
  have hf : feed parse mode [] (chunks ++ (c ++ x) :: ts)
      = ((feed parse mode [] (chunks ++ [c])).1 ++ x ++ ts.flatten,
         (feed parse mode [] (chunks ++ [c])).2) := by
    rw [feed_append, feed_append]
    simp only [feed, onData_append_tail parse mode _ c x hx,
      feed_of_no_newline parse mode ts hts _ hb, List.append_nil]
  exact ⟨by simp only [handleStreamResponseWithIDs, hf], by rw [hf]⟩

/-- C18, an example: an event line that arrives without its newline before the end
of the upstream stream produces no write besides the role chunk. -/
theorem unterminated_tail_ignored_witness :
    handleStreamResponseWithIDs jsonParse (lit "think")
        [lit "data: \x7b\"data\":\x7b\"delta_content\":\"Hi\"\x7d\x7d"]
      = [Write.role] :=
  (unterminated_tail_ignored jsonParse (lit "think") [] []
    (lit "data: \x7b\"data\":\x7b\"delta_content\":\"Hi\"\x7d\x7d") [] (by decide)
    (by simp)).1.trans (by rfl)

/-! ## The two emitters on one chunk -/

theorem processLine_eq_decode (parse : Str → Option JSValue) (mode l : Str) :
    processLine parse mode l =
      match decodeLine parse l with
      | none => ([], false)
      | some u => (handleEvent mode u).getD ([], false) := by
  unfold processLine decodeLine
  by_cases h1 : (!startsWith (lit "data: ") l) = true
  · simp [h1]
  · by_cases h2 : (l.drop 6).isEmpty = true
    · simp [h1, h2]
    · simp only [h1, h2, if_false]
      cases hp : parse (l.drop 6) with
      | none => rfl
      | some u =>
        simp only [Bool.false_eq_true, if_false]
        cases handleEvent mode u <;> rfl

theorem thinkingIsText_of_deltaIsText (u : JSValue) (h : deltaIsText u = true) :
    thinkingIsText u = true := by
  unfold deltaIsText at h
  unfold thinkingIsText
  cases hv : get (get u (lit "data")) (lit "delta_content") <;> simp_all

theorem contentConverts_of_deltaIsText (toStr : JSValue → Option Str) (u : JSValue)
    (h : deltaIsText u = true) : contentConverts toStr u = true := by
  unfold deltaIsText at h
  unfold contentConverts
  cases hv : get (get u (lit "data")) (lit "delta_content") <;> simp_all

theorem deltaText_deltaWrites (mode : Str) (toStr : JSValue → Option Str) (u : JSValue)
    (h : deltaIsText u = true) :
    (deltaWrites mode u).flatMap deltaText = fragmentText mode toStr u := by
  unfold deltaIsText at h
  unfold deltaWrites fragmentText
  cases hv : get (get u (lit "data")) (lit "delta_content") with
  | str s =>
    cases hs : truthy (JSValue.str s)
    · simp
    · cases hph : isString (get (get u (lit "data")) (lit "phase")) (lit "thinking")
      · simp [deltaText, appended]
      · simp only [hs, hph, if_true]
        by_cases ht : transformThinking mode s = []
        · simp [ht]
        · simp [ht, deltaText]
  | undefined => simp [truthy]
  | null => simp [truthy]
  | bool b => rw [hv] at h; simp_all
  | num n => rw [hv] at h; simp_all
  | arr xs => rw [hv] at h; simp_all [truthy]
  | obj kvs => rw [hv] at h; simp_all [truthy]

theorem deltaText_terminalWrites (u : JSValue) : (terminalWrites u).flatMap deltaText = [] := by
  unfold terminalWrites
  split <;> simp [deltaText]

theorem processLines_deltaText (parse : Str → Option JSValue) (mode : Str) (toStr : JSValue → Option Str)
    (lines : List Str)
    (h : ∀ u ∈ lines.filterMap (decodeLine parse), hasErrorSignal u = false ∧ deltaIsText u = true) :
    (processLines parse mode lines).flatMap deltaText
      = aggregatedContent mode toStr (lines.filterMap (decodeLine parse)) := by
  induction lines with
  | nil => simp [processLines, aggregatedContent]
  | cons l rest ih =>
    have h2 : ∀ u ∈ rest.filterMap (decodeLine parse),
        hasErrorSignal u = false ∧ deltaIsText u = true := by
      intro u hu
      apply h
      cases hd : decodeLine parse l <;> simp [List.filterMap_cons, hd, hu]
    have ih2 := ih h2
    unfold processLines
    rw [processLine_eq_decode]
    cases hd : decodeLine parse l with
    | none => simp [List.filterMap_cons, hd, ih2]
    | some u =>
      have hu := h u (by simp [List.filterMap_cons, hd])
      simp only [List.filterMap_cons, hd, aggregatedContent]
      cases hr : readable u
      · simp [handleEvent_of_not_readable mode u hr, fragmentText_of_not_readable mode toStr u hr,
          isTerminal_of_not_readable u hr, ih2]
      · rw [handleEvent_of_no_error mode u hr hu.1,
          contentWritesSpec_of_text mode u (thinkingIsText_of_deltaIsText u hu.2)]
        cases ht : isTerminal u
        · simp [List.flatMap_append, deltaText_deltaWrites mode toStr u hu.2,
            deltaText_terminalWrites, ih2]
        · simp [List.flatMap_append, deltaText_deltaWrites mode toStr u hu.2,
            deltaText_terminalWrites]

theorem dropLast_splitLines_of_complete (parse : Str → Option JSValue) (t : Str)
    (h : completeLines t = true) :
    ((splitLines t).dropLast).filterMap (decodeLine parse) = events parse t := by
  unfold events
  rcases completeLines_cases t h with h0 | ⟨p, hp⟩
  · subst h0; simp [splitLines, decodeLine_nil]
  · subst hp
    have hs : splitLines (p ++ [10]) = splitLines p ++ [[]] := by
      rw [splitLines_append_newline]; rfl
    rw [hs, List.dropLast_concat]
    simp [decodeLine_nil]

/-- C19. A transcript made of newline-terminated lines, with no error signal and no
truthy `delta_content` that is not a string, delivered as one chunk: the
concatenation, in order, of the `reasoning_content` and `content` deltas the
streaming handler writes is the content of the response the non-streaming handler
builds. -/
theorem emitters_agree (parse : Str → Option JSValue) (mode : Str) (toStr : JSValue → Option Str)
    (transcript : Str) (hlines : completeLines transcript = true)
    (hev : ∀ u ∈ events parse transcript, hasErrorSignal u = false ∧ deltaIsText u = true) :
    (handleStreamResponseWithIDs parse mode [transcript]).flatMap deltaText
      = (handleNonStreamResponseWithIDs parse mode toStr [transcript]).content := by
  have hd := dropLast_splitLines_of_complete parse transcript hlines
  have hs : (handleStreamResponseWithIDs parse mode [transcript]).flatMap deltaText
      = aggregatedContent mode toStr (events parse transcript) := by
    simp only [handleStreamResponseWithIDs, feed, onData, List.nil_append, List.append_nil,
      List.flatMap_cons, deltaText]
    rw [processLines_deltaText parse mode toStr _ (by rw [hd]; exact hev), hd]
  have he : (splitLines transcript).filterMap (decodeLine parse) = events parse transcript := rfl
  have hn : (handleNonStreamResponseWithIDs parse mode toStr [transcript]).content
      = aggregatedContent mode toStr (events parse transcript) := by
    simp only [handleNonStreamResponseWithIDs, onEnd, collect, List.foldl_cons, List.foldl_nil,
      collectData]
    rw [if_neg (by simp), accumulateLines_fullContent parse mode toStr _ []
      (by rw [he]; exact fun u hu => contentConverts_of_deltaIsText toStr u (hev u hu).2), he,
      List.nil_append]
  rw [hs, hn]

/-- C19, an example: a thinking fragment, an answer fragment and a `done` event in one
chunk; both emitters deliver `<span>x</span>Hi`. -/
theorem emitters_agree_witness :
    (handleStreamResponseWithIDs jsonParse (lit "think")
        [lit "data: \x7b\"data\":\x7b\"delta_content\":\"<details>x</details>\",\"phase\":\"thinking\"\x7d\x7d\ndata: \x7b\"data\":\x7b\"delta_content\":\"Hi\",\"phase\":\"answer\"\x7d\x7d\ndata: \x7b\"data\":\x7b\"done\":true\x7d\x7d\n"]).flatMap deltaText
      = lit "<span>x</span>Hi"
    ∧ (handleNonStreamResponseWithIDs jsonParse (lit "think") (fun _ => none)
        [lit "data: \x7b\"data\":\x7b\"delta_content\":\"<details>x</details>\",\"phase\":\"thinking\"\x7d\x7d\ndata: \x7b\"data\":\x7b\"delta_content\":\"Hi\",\"phase\":\"answer\"\x7d\x7d\ndata: \x7b\"data\":\x7b\"done\":true\x7d\x7d\n"]).content
      = lit "<span>x</span>Hi" :=
  ⟨(emitters_agree jsonParse (lit "think") (fun _ => none)
      (lit "data: \x7b\"data\":\x7b\"delta_content\":\"<details>x</details>\",\"phase\":\"thinking\"\x7d\x7d\ndata: \x7b\"data\":\x7b\"delta_content\":\"Hi\",\"phase\":\"answer\"\x7d\x7d\ndata: \x7b\"data\":\x7b\"done\":true\x7d\x7d\n")
      (by decide) (by decide)).trans (by decide),
   by decide⟩

/-! ## Error fields in the non-streaming handler -/

theorem accumulateEvent_congr (mode : Str) (toStr : JSValue → Option Str) (full : Str) (u w : JSValue)
    (hr : readable u = readable w)
    (h1 : get (get u (lit "data")) (lit "delta_content") = get (get w (lit "data")) (lit "delta_content"))
    (h2 : get (get u (lit "data")) (lit "phase") = get (get w (lit "data")) (lit "phase"))
    (h3 : get (get u (lit "data")) (lit "done") = get (get w (lit "data")) (lit "done")) :
    accumulateEvent mode toStr full u = accumulateEvent mode toStr full w := by
  cases hw : readable w
  · rw [accumulateEvent_of_not_readable mode toStr full u (hr.trans hw),
      accumulateEvent_of_not_readable mode toStr full w hw]
  · rw [accumulateEvent_core mode toStr full u (hr.trans hw),
      accumulateEvent_core mode toStr full w hw, h1, h2, h3]

theorem lookupKey_setKey_same (k : Str) (v : JSValue) (kvs : List (Str × JSValue)) :
    lookupKey k (setKey k v kvs) = v := by
  induction kvs with
  | nil => simp [setKey, lookupKey]
  | cons p rest ih =>
    obtain ⟨k', w⟩ := p
    by_cases h : k' = k
    · simp [setKey, lookupKey, h]
    · simp [setKey, lookupKey, h, ih]

theorem lookupKey_setKey_ne (k k' : Str) (v : JSValue) (kvs : List (Str × JSValue))
    (hne : k' ≠ k) : lookupKey k' (setKey k v kvs) = lookupKey k' kvs := by
  induction kvs with
  | nil => simp [setKey, lookupKey, Ne.symm hne]
  | cons p rest ih =>
    obtain ⟨k2, w⟩ := p
    by_cases h : k2 = k
    · subst h
      simp [setKey, lookupKey, Ne.symm hne]
    · by_cases h2 : k2 = k'
      · subst h2
        simp [setKey, lookupKey, h]
      · simp [setKey, lookupKey, h, h2, ih]

theorem lookupKey_filter_ne (k k' : Str) (kvs : List (Str × JSValue)) (hne : k' ≠ k) :
    lookupKey k' (kvs.filter (fun p => p.1 != k)) = lookupKey k' kvs := by
  induction kvs with
  | nil => rfl
  | cons p rest ih =>
    obtain ⟨k2, w⟩ := p
    by_cases h : k2 = k
    · subst h
      simp [List.filter_cons, lookupKey, Ne.symm hne, ih]
    · by_cases h2 : k2 = k'
      · subst h2
        simp [List.filter_cons, lookupKey, h]
      · simp [List.filter_cons, lookupKey, h, h2, ih]

theorem get_setField_ne (k k' : Str) (v u : JSValue) (hne : k' ≠ k) :
    get (setField k v u) k' = get u k' := by
  cases u <;> simp [setField, get, getProp, lookupKey_setKey_ne k k' v _ hne]

theorem get_setField_same (k : Str) (v : JSValue) (kvs : List (Str × JSValue)) :
    get (setField k v (.obj kvs)) k = v := by
  simp [setField, get, getProp, lookupKey_setKey_same]

theorem get_removeField_ne (k k' : Str) (u : JSValue) (hne : k' ≠ k) :
    get (removeField k u) k' = get u k' := by
  cases u <;> simp [removeField, get, getProp, lookupKey_filter_ne k k' _ hne]

theorem get_updateField_ne (k k' : Str) (f : JSValue → JSValue) (u : JSValue) (hne : k' ≠ k) :
    get (updateField k f u) k' = get u k' := by
  cases u with
  | obj kvs =>
    simp only [updateField]
    split <;> simp [get, getProp, lookupKey_setKey_ne k k' _ _ hne]
  | _ => rfl

theorem get_updateField_same (k : Str) (f : JSValue → JSValue) (u : JSValue) :
    get (updateField k f u) k
      = match get u k with
        | .obj inner => f (.obj inner)
        | w => w := by
  cases u with
  | obj kvs =>
    cases hl : lookupKey k kvs with
    | obj inner => simp [updateField, hl, get, getProp, lookupKey_setKey_same]
    | _ => simp [updateField, hl, get, getProp]
  | _ => rfl

theorem get_get_updateField (k k' : Str) (f : JSValue → JSValue) (u : JSValue)
    (hf : ∀ d, get (f d) k' = get d k') :
    get (get (updateField k f u) k) k' = get (get u k) k' := by
  rw [get_updateField_same]
  cases hg : get u k <;> simp [hf]

theorem readable_setField (k : Str) (v u : JSValue) : readable (setField k v u) = readable u := by
  cases u <;> rfl

theorem readable_removeField (k : Str) (u : JSValue) : readable (removeField k u) = readable u := by
  cases u <;> rfl

theorem readable_updateField (k : Str) (f : JSValue → JSValue) (u : JSValue) :
    readable (updateField k f u) = readable u := by
  cases u with
  | obj kvs => simp only [updateField]; split <;> rfl
  | _ => rfl

theorem placeError_same_content (place : ErrorPlace) (v u : JSValue) (k : Str)
    (h1 : k ≠ lit "error") (h2 : k ≠ lit "inner") :
    readable (placeError place v u) = readable u
    ∧ get (get (placeError place v u) (lit "data")) k = get (get u (lit "data")) k := by
  have hde : lit "data" ≠ lit "error" := by decide
  cases place with
  | top => exact ⟨readable_setField _ _ _, by simp only [placeError, get_setField_ne _ _ _ _ hde]⟩
  | data =>
    exact ⟨readable_updateField _ _ _,
      get_get_updateField _ _ _ _ (fun d => get_setField_ne _ _ _ _ h1)⟩
  | inner =>
    exact ⟨readable_updateField _ _ _,
      get_get_updateField _ _ _ _ (fun d => get_updateField_ne _ _ _ _ h2)⟩

theorem removeError_same_content (place : ErrorPlace) (u : JSValue) (k : Str)
    (h1 : k ≠ lit "error") (h2 : k ≠ lit "inner") :
    readable (removeError place u) = readable u
    ∧ get (get (removeError place u) (lit "data")) k = get (get u (lit "data")) k := by
  have hde : lit "data" ≠ lit "error" := by decide
  cases place with
  | top =>
    exact ⟨readable_removeField _ _, by simp only [removeError, get_removeField_ne _ _ _ hde]⟩
  | data =>
    exact ⟨readable_updateField _ _ _,
      get_get_updateField _ _ _ _ (fun d => get_removeField_ne _ _ _ h1)⟩
  | inner =>
    exact ⟨readable_updateField _ _ _,
      get_get_updateField _ _ _ _ (fun d => get_updateField_ne _ _ _ _ h2)⟩

theorem hasErrorSignal_placeError (place : ErrorPlace) (v u : JSValue)
    (hp : hasPlace place u = true) (hv : truthy v = true) :
    hasErrorSignal (placeError place v u) = true := by
  unfold hasErrorSignal
  cases place with
  | top =>
    cases u with
    | obj kvs => simp [placeError, get_setField_same, hv]
    | _ => simp [hasPlace] at hp
  | data =>
    have h : get (get (placeError ErrorPlace.data v u) (lit "data")) (lit "error") = v := by
      simp only [placeError, get_updateField_same]
      simp only [hasPlace] at hp
      cases hg : get u (lit "data") with
      | obj dk => simp [get_setField_same]
      | _ => simp [hg] at hp
    simp [h, hv]
  | inner =>
    have h : get (get (get (placeError ErrorPlace.inner v u) (lit "data")) (lit "inner")) (lit "error")
        = v := by
      simp only [placeError, get_updateField_same]
      simp only [hasPlace] at hp
      cases hg : get u (lit "data") with
      | obj dk =>
        simp only [get_updateField_same]
        rw [hg] at hp
        cases hi : get (JSValue.obj dk) (lit "inner") with
        | obj ik => simp [get_setField_same]
        | _ => simp [hi] at hp
      | _ =>
        rw [hg] at hp
        simp [get, getProp] at hp
    simp [h, hv]

/-- C13. The non-streaming handler does not look at error fields. For every decoded
event, every place of an error field and every value put there, the outcome of the
loop body (the new `fullContent`, whether `isDone` is set, or a caught exception) is
that for the event with the field removed, and that for the event as it was; while
the streaming handler, when the value is truthy, ends the stream on the same event
with the finish marker and `[DONE]` and no content. -/
theorem nonStream_ignores_error (mode : Str) (toStr : JSValue → Option Str) (full : Str)
    (place : ErrorPlace) (v u : JSValue) :
    accumulateEvent mode toStr full (placeError place v u)
      = accumulateEvent mode toStr full (removeError place u)
    ∧ accumulateEvent mode toStr full (placeError place v u) = accumulateEvent mode toStr full u
    ∧ (hasPlace place u = true → truthy v = true →
        handleEvent mode (placeError place v u) = some ([Write.finish, Write.done], true)) := by
  have p := fun k h1 h2 => placeError_same_content place v u k h1 h2
  have r := fun k h1 h2 => removeError_same_content place u k h1 h2
  have e1 : accumulateEvent mode toStr full (placeError place v u)
      = accumulateEvent mode toStr full u :=
    accumulateEvent_congr mode toStr full _ _ (p (lit "done") (by decide) (by decide)).1
      (p (lit "delta_content") (by decide) (by decide)).2
      (p (lit "phase") (by decide) (by decide)).2
      (p (lit "done") (by decide) (by decide)).2
  have e2 : accumulateEvent mode toStr full (removeError place u)
      = accumulateEvent mode toStr full u :=
    accumulateEvent_congr mode toStr full _ _ (r (lit "done") (by decide) (by decide)).1
      (r (lit "delta_content") (by decide) (by decide)).2
      (r (lit "phase") (by decide) (by decide)).2
      (r (lit "done") (by decide) (by decide)).2
  exact ⟨e1.trans e2.symm, e1,
    fun hp hv => handleEvent_of_error mode _ (hasErrorSignal_placeError place v u hp hv)⟩

/-- C13, an example: an answer event with the content `Hi`, and the same event with
an error object in `data.error`. The non-streaming handler appends `Hi` for both; the
streaming handler ends the stream on the second. -/
theorem nonStream_ignores_error_witness :
    accumulateEvent (lit "think") (fun _ => none) []
        (placeError ErrorPlace.data (.obj [(lit "code", .num ⟨false, 500, 0⟩)])
          (.obj [(lit "data", .obj [(lit "delta_content", .str (lit "Hi"))])]))
      = some (lit "Hi", false)
    ∧ handleEvent (lit "think")
        (placeError ErrorPlace.data (.obj [(lit "code", .num ⟨false, 500, 0⟩)])
          (.obj [(lit "data", .obj [(lit "delta_content", .str (lit "Hi"))])]))
      = some ([Write.finish, Write.done], true) :=
  ⟨(nonStream_ignores_error (lit "think") (fun _ => none) [] ErrorPlace.data
      (.obj [(lit "code", .num ⟨false, 500, 0⟩)])
      (.obj [(lit "data", .obj [(lit "delta_content", .str (lit "Hi"))])])).2.1.trans (by rfl),
   (nonStream_ignores_error (lit "think") (fun _ => none) [] ErrorPlace.data
      (.obj [(lit "code", .num ⟨false, 500, 0⟩)])
      (.obj [(lit "data", .obj [(lit "delta_content", .str (lit "Hi"))])])).2.2 (by rfl) (by rfl)⟩

/-! ## The summary wrapper -/

theorem replaceMatches_skip (m : Str → Option Nat) (rep : Str) (k : Nat) (s : Str) :
    replaceMatches m rep k s = replaceMatches m rep 0 (s.drop k) := by
  induction s generalizing k with
  | nil => cases k <;> simp [replaceMatches]
  | cons c cs ih =>
    cases k with
    | zero => rfl
    | succ k => simp only [replaceMatches, List.drop_succ_cons]; exact ih k

theorem replaceMatches_cons (m : Str → Option Nat) (rep : Str) (c : Nat) (cs : Str) :
    replaceMatches m rep 0 (c :: cs)
      = match m (c :: cs) with
        | some len => rep ++ replaceMatches m rep 0 (cs.drop (len - 1))
        | none => c :: replaceMatches m rep 0 cs := by
  simp only [replaceMatches]
  cases m (c :: cs) with
  | none => rfl
  | some len => simp only [replaceMatches_skip m rep (len - 1) cs]

theorem replaceMatches_of_no_match_before (m : Str → Option Nat) (rep a t : Str)
    (h : ∀ a1 a2 : Str, a = a1 ++ a2 → a2 ≠ [] → m (a2 ++ t) = none) :
    replaceMatches m rep 0 (a ++ t) = a ++ replaceMatches m rep 0 t := by
  induction a with
  | nil => rfl
  | cons c cs ih =>
    have h0 : m (c :: cs ++ t) = none := h [] (c :: cs) rfl (by simp)
    have h1 : ∀ a1 a2 : Str, cs = a1 ++ a2 → a2 ≠ [] → m (a2 ++ t) = none :=
      fun a1 a2 e hne => h (c :: a1) a2 (by rw [e]; rfl) hne
    simp only [List.cons_append] at h0 ⊢
    rw [replaceMatches_cons, h0, ih h1]

theorem startsWith_iff (p t : Str) : startsWith p t = true ↔ ∃ r, t = p ++ r := by
  induction p generalizing t with
  | nil => simp [startsWith]
  | cons a p ih =>
    cases t with
    | nil => simp [startsWith]
    | cons c t =>
      simp only [startsWith, Bool.and_eq_true, beq_iff_eq, ih, List.cons_append, List.cons.injEq]
      constructor
      · rintro ⟨rfl, r, rfl⟩; exact ⟨r, rfl, rfl⟩
      · rintro ⟨r, rfl, rfl⟩; exact ⟨rfl, r, rfl⟩

theorem indexOf_eq_some (p : Str) (x : Str) (j : Nat) (h : indexOf p x = some j) :
    startsWith p (x.drop j) = true
    ∧ ∀ a1 a2 : Str, x.take j = a1 ++ a2 → a2 ≠ [] → startsWith p (a2 ++ x.drop j) = false := by
  induction x generalizing j with
  | nil =>
    simp only [indexOf] at h
    split at h
    · simp only [Option.some.injEq] at h
      subst h
      rename_i hs
      exact ⟨by simpa using hs, fun a1 a2 e hne => by simp at e; exact absurd e.2 hne⟩
    · cases h
  | cons c cs ih =>
    simp only [indexOf] at h
    by_cases hs : startsWith p (c :: cs) = true
    · simp only [hs, if_true, Option.some.injEq] at h
      subst h
      exact ⟨by simpa using hs, fun a1 a2 e hne => by simp at e; exact absurd e.2 hne⟩
    · simp only [hs, Bool.false_eq_true, if_false, Option.map_eq_some'] at h
      obtain ⟨j', hj', rfl⟩ := h
      obtain ⟨h1, h2⟩ := ih j' hj'
      refine ⟨by simpa using h1, fun a1 a2 e hne => ?_⟩
      simp only [List.take_succ_cons, List.drop_succ_cons] at e ⊢
      cases a1 with
      | nil =>
        simp only [List.nil_append] at e
        rw [← e, List.cons_append, List.take_append_drop]
        simpa using hs
      | cons d a1 =>
        simp only [List.cons_append, List.cons.injEq] at e
        exact h2 a1 a2 e.2 hne

theorem indexOf_eq_none (p : Str) (x : Str) (h : indexOf p x = none) :
    ∀ a t : Str, x = a ++ t → startsWith p t = false := by
  induction x with
  | nil =>
    intro a t e
    simp only [indexOf] at h
    have ha : a = [] ∧ t = [] := by simpa using e.symm
    rw [ha.2]
    split at h
    · cases h
    · rename_i hs; simpa using hs
  | cons c cs ih =>
    intro a t e
    simp only [indexOf] at h
    by_cases hs : startsWith p (c :: cs) = true
    · simp [hs] at h
    · simp only [hs, Bool.false_eq_true, if_false, Option.map_eq_none'] at h
      cases a with
      | nil => simp only [List.nil_append] at e; rw [← e]; simpa using hs
      | cons d a =>
        simp only [List.cons_append, List.cons.injEq] at e
        exact ih h a t e.2

theorem matchesIn_eq_false (m : Str → Option Nat) (s : Str)
    (h : ∀ a t : Str, s = a ++ t → m t = none) : matchesIn m s = false := by
  induction s with
  | nil => rfl
  | cons c cs ih =>
    simp only [matchesIn, Bool.or_eq_false_iff]
    exact ⟨by simp [h [] (c :: cs) rfl], ih (fun a t e => h (c :: a) t (by rw [e]; rfl))⟩

theorem summaryMatch_of_closed (b c : Str)
    (h : indexOf (lit "</summary>") (b ++ lit "</summary>" ++ c) = some b.length) :
    summaryMatch (lit "<summary>" ++ b ++ lit "</summary>" ++ c) = some (9 + b.length + 10) := by
  have ho : lit "<summary>" = [60, 115, 117, 109, 109, 97, 114, 121, 62] := by decide
  have hd : List.drop 9 (lit "<summary>" ++ b ++ lit "</summary>" ++ c)
      = b ++ lit "</summary>" ++ c := by
    rw [ho]; simp
  unfold summaryMatch
  rw [List.append_assoc, List.append_assoc, startsWith_append, if_pos rfl,
    ← List.append_assoc, ← List.append_assoc, hd, h]
  rfl

/-- C16. Step 1 of the normalizer, `s.replace(/<summary>.*?<\/summary>/gs, '')`. When
the first `<summary>` of the text stands behind `a` and the first `</summary>` behind
it stands behind `b` (which may hold newlines), step 1 keeps `a`, removes the wrapper
from the opening to that closing tag and goes on in the same way with the text `c`
behind it; and when no `<summary>` of the text has a `</summary>` behind it, step 1
returns the text as it is. -/
theorem summary_stripping (s : Str) :
    (∀ a b c : Str, s = a ++ lit "<summary>" ++ b ++ lit "</summary>" ++ c →
        indexOf (lit "<summary>") s = some a.length →
        indexOf (lit "</summary>") (b ++ lit "</summary>" ++ c) = some b.length →
        replaceMatches summaryMatch [] 0 s = a ++ replaceMatches summaryMatch [] 0 c)
    ∧ ((∀ a b : Str, s = a ++ lit "<summary>" ++ b → indexOf (lit "</summary>") b = none) →
        replaceMatches summaryMatch [] 0 s = s) := by
  have hc : (lit "</summary>").length = 10 := by decide
  refine ⟨fun a b c hs hopen hclose => ?_, fun h => ?_⟩
  · have hs2 : s = a ++ (lit "<summary>" ++ b ++ lit "</summary>" ++ c) := by
      rw [hs]; simp
    have hdrop : s.drop a.length = lit "<summary>" ++ b ++ lit "</summary>" ++ c := by
      rw [hs2]; simp
    have htake : s.take a.length = a := by
      rw [hs2]; simp
    have hno := (indexOf_eq_some _ s a.length hopen).2
    rw [hs2, replaceMatches_of_no_match_before summaryMatch [] a _ ?_]
    · have hm := summaryMatch_of_closed b c hclose
      have ho : (lit "<summary>").length = 9 := by decide
      have hd : List.drop (9 + b.length + 10) (lit "<summary>" ++ b ++ lit "</summary>" ++ c)
          = c := by
        have hl : (lit "<summary>" ++ b ++ lit "</summary>").length = 9 + b.length + 10 := by
          simp only [List.length_append, ho, hc]
        rw [← hl, List.drop_left]
      cases hb : (lit "<summary>" ++ b ++ lit "</summary>" ++ c) with
      | nil =>
        have hlen := congrArg List.length hb
        simp only [List.length_append, ho, List.length_nil] at hlen
        omega
      | cons x xs =>
        rw [hb] at hm hd
        have hx : List.drop (9 + b.length + 10 - 1) xs = c := by
          have : 9 + b.length + 10 = (9 + b.length + 10 - 1) + 1 := by omega
          rw [this, List.drop_succ_cons] at hd
          exact hd
        rw [replaceMatches_cons, hm]
        simp only [List.nil_append, hx]
    · intro a1 a2 e hne
      have hsw := hno a1 a2 (by rw [htake, e]) hne
      rw [hdrop] at hsw
      unfold summaryMatch
      rw [hsw]
      rfl
  · apply replaceMatches_of_no_match
    apply matchesIn_eq_false
    intro a t e
    unfold summaryMatch
    by_cases hsw : startsWith (lit "<summary>") t = true
    · obtain ⟨r, hr⟩ := (startsWith_iff _ _).1 hsw
      have ho : (lit "<summary>").length = 9 := by decide
      have hd : List.drop 9 t = r := by rw [hr, ← ho, List.drop_left]
      have := h a r (by rw [e, hr, List.append_assoc])
      simp [hsw, hd, this]
    · simp [hsw]

/-- C16, two examples: the wrapper spans a newline and is removed, while the
`<summary>` behind it has no closing tag and stays with the text that follows it; and
a text whose only `<summary>` is not closed is returned as it is. -/
theorem summary_stripping_witness :
    replaceMatches summaryMatch [] 0 (lit "a<summary>x\ny</summary>b<summary>z")
      = lit "ab<summary>z"
    ∧ replaceMatches summaryMatch [] 0 (lit "<summary>x") = lit "<summary>x" :=
  ⟨((summary_stripping (lit "a<summary>x\ny</summary>b<summary>z")).1
      (lit "a") (lit "x\ny") (lit "b<summary>z") (by decide) (by decide) (by decide)).trans
      (by decide),
   (summary_stripping (lit "<summary>x")).2 (fun a b h => by
      have hl := congrArg List.length h
      have ho : (lit "<summary>").length = 9 := by decide
      have hs : (lit "<summary>x").length = 10 := by decide
      simp only [List.length_append, ho, hs] at hl
      have hcl : lit "</summary>" = [60, 47, 115, 117, 109, 109, 97, 114, 121, 62] := by decide
      match b, hl with
      | [], _ => decide
      | [c], _ => simp [indexOf, startsWith, hcl]
      | _ :: _ :: _, hl => simp only [List.length_cons] at hl; omega)⟩

/-! ## The marker tokens -/

theorem tagsClosedFrom_tail (o : Bool) (c : Nat) (cs : Str)
    (h : tagsClosedFrom o (c :: cs) = true) : ∃ o2, tagsClosedFrom o2 cs = true := by
  simp only [tagsClosedFrom] at h
  split at h
  · simp only [Bool.and_eq_true] at h; exact ⟨true, h.2⟩
  · split at h
    · exact ⟨false, h⟩
    · exact ⟨o, h⟩

theorem tagsClosedFrom_after_gt (g r : Str) (o : Bool)
    (h : tagsClosedFrom o (g ++ 62 :: r) = true) : tagsClosedFrom false r = true := by
  induction g generalizing o with
  | nil => simpa [tagsClosedFrom] using h
  | cons c g ih =>
    obtain ⟨o2, h2⟩ := tagsClosedFrom_tail o c _ h
    exact ih o2 h2

theorem tagsClosedFrom_lt (o : Bool) (cs : Str) (h : tagsClosedFrom o (60 :: cs) = true) :
    o = false ∧ tagsClosedFrom true cs = true := by
  simpa [tagsClosedFrom] using h

theorem tagMatcher_head (m : Str → Option Nat) (hm : TagMatcher m) (d : Nat) (ds : Str)
    (hd : d ≠ 60) : m (d :: ds) = none := by
  cases h : m (d :: ds) with
  | none => rfl
  | some len =>
    obtain ⟨g, r, e, _⟩ := hm _ _ h
    simp only [List.cons.injEq] at e
    exact absurd e.1 hd

/-- Behind a `<` of a text without nested tags, a tag tail found at the start of the
result of a replace was at the start of the text. -/
theorem startsWith_replaceMatches (m : Str → Option Nat) (rep : Str) (hm : TagMatcher m)
    (cs : Str) : ∀ u : Str, tagsClosedFrom true cs = true → tagTail u = true →
      startsWith u (replaceMatches m rep 0 cs) = true → startsWith u cs = true := by
  induction cs with
  | nil => intro u _ _ h; simpa [replaceMatches] using h
  | cons d ds ih =>
    intro u hc hu h
    by_cases hd : d = 60
    · subst hd
      simp [tagsClosedFrom] at hc
    · rw [replaceMatches_cons, tagMatcher_head m hm d ds hd] at h
      cases u with
      | nil => simp [startsWith]
      | cons e u2 =>
        simp only [startsWith, Bool.and_eq_true, beq_iff_eq] at h ⊢
        simp only [tagTail, Bool.and_eq_true, Bool.or_eq_true, bne_iff_ne, ne_eq,
          List.isEmpty_iff] at hu
        refine ⟨h.1, ?_⟩
        by_cases hg : d = 62
        · have he : e = 62 := h.1.trans hg
          rcases hu.1.2 with h1 | h1
          · exact absurd he h1
          · subst h1; simp [startsWith]
        · have hc2 : tagsClosedFrom true ds = true := by
            simpa [tagsClosedFrom, hd, hg] using hc
          exact ih u2 hc2 hu.2 h.2

theorem literalMatch_isSome (tok t : Str) :
    (literalMatch tok t).isSome = startsWith tok t := by
  unfold literalMatch
  cases startsWith tok t <;> rfl

/-- A replace whose matches run from a `<` to a `>`, on a text without nested tags:
the result holds no token `<u` provided every occurrence of the token in the text is
the start of a match and the replacement brings none. -/
theorem includes_replaceMatches (m : Str → Option Nat) (rep u : Str) (hm : TagMatcher m)
    (hu : tagTail u = true)
    (hrep : ∀ x : Str, includes (60 :: u) x = false → includes (60 :: u) (rep ++ x) = false) :
    ∀ (n : Nat) (s : Str) (o : Bool), s.length ≤ n → tagsClosedFrom o s = true →
      (∀ a t : Str, s = a ++ t → startsWith (60 :: u) t = true → (m t).isSome = true) →
      includes (60 :: u) (replaceMatches m rep 0 s) = false := by
  intro n
  induction n with
  | zero =>
    intro s o hl _ _
    have : s = [] := List.eq_nil_of_length_eq_zero (Nat.le_zero.1 hl)
    subst this; rfl
  | succ n ih =>
    intro s o hl hc hocc
    cases s with
    | nil => rfl
    | cons c cs =>
      rw [replaceMatches_cons]
      cases hmc : m (c :: cs) with
      | some len =>
        obtain ⟨g, r, e, hlen⟩ := hm _ _ hmc
        simp only [List.cons.injEq] at e
        obtain ⟨hc60, hcs⟩ := e
        have hdrop : cs.drop (len - 1) = r := by
          rw [hcs, hlen]
          have : g.length + 2 - 1 = g.length + 1 := by omega
          rw [this, List.drop_append_eq_append_drop]
          simp
        simp only [hdrop]
        apply hrep
        apply ih r false
        · have : r.length < (c :: cs).length := by
            rw [hcs]; simp [List.length_append]; omega
          omega
        · rw [hcs] at hc
          obtain ⟨o2, h2⟩ := tagsClosedFrom_tail o c _ hc
          exact tagsClosedFrom_after_gt g r o2 h2
        · intro a t e2 hst
          exact hocc (c :: (g ++ [62]) ++ a) t (by rw [hcs, e2]; simp) hst
      | none =>
        simp only []
        have hrest : includes (60 :: u) (replaceMatches m rep 0 cs) = false := by
          obtain ⟨o2, h2⟩ := tagsClosedFrom_tail o c cs hc
          exact ih cs o2 (by simp at hl; omega) h2
            (fun a t e2 hst => hocc (c :: a) t (by rw [e2]; rfl) hst)
        unfold includes at hrest ⊢
        simp only [matchesIn, Bool.or_eq_false_iff, hrest, and_true, literalMatch_isSome]
        cases hsw : startsWith (60 :: u) (c :: replaceMatches m rep 0 cs) with
        | false => rfl
        | true =>
          simp only [startsWith, Bool.and_eq_true, beq_iff_eq] at hsw
          have hc60 : c = 60 := hsw.1.symm
          subst hc60
          have hcl := (tagsClosedFrom_lt o cs hc).2
          have h1 := startsWith_replaceMatches m rep hm cs u hcl hu hsw.2
          have h2 := hocc [] (60 :: cs) rfl (by simp [startsWith, h1])
          rw [hmc] at h2
          cases h2

theorem tagsClosedFrom_replaceMatches (m : Str → Option Nat) (rep : Str) (hm : TagMatcher m)
    (hrep : ∀ x : Str, tagsClosedFrom false x = true → tagsClosedFrom false (rep ++ x) = true) :
    ∀ (n : Nat) (s : Str) (o : Bool), s.length ≤ n → tagsClosedFrom o s = true →
      tagsClosedFrom o (replaceMatches m rep 0 s) = true := by
  intro n
  induction n with
  | zero =>
    intro s o hl _
    have : s = [] := List.eq_nil_of_length_eq_zero (Nat.le_zero.1 hl)
    subst this; rfl
  | succ n ih =>
    intro s o hl hc
    cases s with
    | nil => rfl
    | cons c cs =>
      rw [replaceMatches_cons]
      cases hmc : m (c :: cs) with
      | some len =>
        obtain ⟨g, r, e, hlen⟩ := hm _ _ hmc
        simp only [List.cons.injEq] at e
        obtain ⟨hc60, hcs⟩ := e
        have hdrop : cs.drop (len - 1) = r := by
          rw [hcs, hlen]
          have : g.length + 2 - 1 = g.length + 1 := by omega
          rw [this, List.drop_append_eq_append_drop]
          simp
        simp only [hdrop]
        subst hc60
        have ho := (tagsClosedFrom_lt o cs hc).1
        subst ho
        apply hrep
        apply ih r false
        · have : r.length < (60 :: cs).length := by
            rw [hcs]; simp [List.length_append]; omega
          omega
        · rw [hcs] at hc
          obtain ⟨o2, h2⟩ := tagsClosedFrom_tail false 60 _ hc
          exact tagsClosedFrom_after_gt g r o2 h2
      | none =>
        simp only []
        have hl2 : cs.length ≤ n := by simp at hl; omega
        simp only [tagsClosedFrom] at hc ⊢
        split
        · rename_i h60
          simp only [h60, if_true, Bool.and_eq_true] at hc
          simp only [Bool.and_eq_true]
          exact ⟨hc.1, ih cs true hl2 hc.2⟩
        · rename_i h60
          simp only [h60, if_false] at hc
          split
          · rename_i h62
            simp only [h62, if_true] at hc
            exact ih cs false hl2 hc
          · rename_i h62
            simp only [h62, if_false] at hc
            exact ih cs o hl2 hc

theorem tagMatcher_literal (g0 : Str) : TagMatcher (literalMatch (60 :: (g0 ++ [62]))) := by
  intro t len h
  unfold literalMatch at h
  by_cases hs : startsWith (60 :: (g0 ++ [62])) t = true
  · simp only [hs, if_true, Option.some.injEq] at h
    obtain ⟨r, hr⟩ := (startsWith_iff _ _).1 hs
    exact ⟨g0, r, by rw [hr]; simp, by rw [← h]; simp⟩
  · simp [hs] at h

theorem indexOf_lt_length (p x : Str) (j : Nat) (hp : p ≠ []) (h : indexOf p x = some j) :
    j < x.length := by
  have h1 := (indexOf_eq_some p x j h).1
  obtain ⟨r, hr⟩ := (startsWith_iff _ _).1 h1
  by_contra hlt
  have : x.drop j = [] := List.drop_eq_nil_of_le (by omega)
  rw [this] at hr
  cases p with
  | nil => exact hp rfl
  | cons a p => cases hr

theorem tagMatcher_summary : TagMatcher summaryMatch := by
  intro t len h
  unfold summaryMatch at h
  have ho : lit "<summary>" = 60 :: [115, 117, 109, 109, 97, 114, 121, 62] := by decide
  have hcl : lit "</summary>" = [60, 47, 115, 117, 109, 109, 97, 114, 121] ++ [62] := by decide
  by_cases hs : startsWith (lit "<summary>") t = true
  · simp only [hs, if_true, Option.map_eq_some'] at h
    obtain ⟨j, hj, rfl⟩ := h
    obtain ⟨x, hx⟩ := (startsWith_iff _ _).1 hs
    have hd : List.drop 9 t = x := by rw [hx, ho]; rfl
    rw [hd] at hj
    have hjl := indexOf_lt_length _ x j (by rw [hcl]; simp) hj
    obtain ⟨r, hr⟩ := (startsWith_iff _ _).1 (indexOf_eq_some _ x j hj).1
    refine ⟨[115, 117, 109, 109, 97, 114, 121, 62] ++ x.take j ++ [60, 47, 115, 117, 109, 109, 97, 114, 121],
      r, ?_, ?_⟩
    · have hxx : x = x.take j ++ x.drop j := (List.take_append_drop j x).symm
      rw [hr] at hxx
      generalize x.take j = pre at hxx ⊢
      rw [hx, ho, hxx, hcl]
      simp
    · simp [List.length_append, List.length_take, Nat.min_eq_left (Nat.le_of_lt hjl)]
      omega
  · simp [hs] at h

theorem tagMatcher_details : TagMatcher detailsMatch := by
  intro t len h
  unfold detailsMatch at h
  have ho : lit "<details" = 60 :: [100, 101, 116, 97, 105, 108, 115] := by decide
  have hcl : lit ">" = [62] := by decide
  by_cases hs : startsWith (lit "<details") t = true
  · simp only [hs, if_true, Option.map_eq_some'] at h
    obtain ⟨j, hj, rfl⟩ := h
    obtain ⟨x, hx⟩ := (startsWith_iff _ _).1 hs
    have hd : List.drop 8 t = x := by rw [hx, ho]; rfl
    rw [hd] at hj
    have hjl := indexOf_lt_length _ x j (by rw [hcl]; simp) hj
    obtain ⟨r, hr⟩ := (startsWith_iff _ _).1 (indexOf_eq_some _ x j hj).1
    refine ⟨[100, 101, 116, 97, 105, 108, 115] ++ x.take j, r, ?_, ?_⟩
    · have hxx : x = x.take j ++ x.drop j := (List.take_append_drop j x).symm
      rw [hr] at hxx
      generalize x.take j = pre at hxx ⊢
      rw [hx, ho, hxx, hcl]
      simp
    · simp [List.length_append, List.length_take, Nat.min_eq_left (Nat.le_of_lt hjl)]
      omega
  · simp [hs] at h

theorem matchesIn_false_suffix (m : Str → Option Nat) (s : Str) (h : matchesIn m s = false) :
    ∀ a t : Str, s = a ++ t → t ≠ [] → m t = none := by
  induction s with
  | nil =>
    intro a t e hne
    have : a = [] ∧ t = [] := by simpa using e.symm
    exact absurd this.2 hne
  | cons c cs ih =>
    intro a t e hne
    simp only [matchesIn, Bool.or_eq_false_iff] at h
    cases a with
    | nil =>
      simp only [List.nil_append] at e
      rw [← e]
      cases hv : m (c :: cs) with
      | none => rfl
      | some v => rw [hv] at h; simp at h
    | cons d a =>
      simp only [List.cons_append, List.cons.injEq] at e
      exact ih h.2 a t e.2 hne

theorem includes_false_suffix (tok s : Str) (h : includes tok s = false) :
    ∀ a t : Str, s = a ++ t → t ≠ [] → startsWith tok t = false := by
  intro a t e hne
  have := matchesIn_false_suffix _ s h a t e hne
  unfold literalMatch at this
  cases hs : startsWith tok t
  · rfl
  · simp [hs] at this

theorem includes_eq_false (tok s : Str) (htok : tok ≠ [])
    (h : ∀ a t : Str, s = a ++ t → t ≠ [] → startsWith tok t = false) :
    includes tok s = false := by
  apply matchesIn_eq_false
  intro a t e
  unfold literalMatch
  cases t with
  | nil =>
    cases tok with
    | nil => exact absurd rfl htok
    | cons x tok => simp [startsWith]
  | cons c t => simp [h a (c :: t) e (by simp)]

/-- A piece of a text without the token holds no token. -/
theorem includes_infix (tok a b c : Str) (htok : tok ≠ [])
    (h : includes tok (a ++ b ++ c) = false) : includes tok b = false := by
  apply includes_eq_false tok b htok
  intro a2 t e hne
  have h1 := includes_false_suffix tok _ h (a ++ a2) (t ++ c) (by rw [e]; simp) (by simp [hne])
  cases hs : startsWith tok t
  · rfl
  · obtain ⟨r, hr⟩ := (startsWith_iff _ _).1 hs
    have : startsWith tok (t ++ c) = true := (startsWith_iff _ _).2 ⟨r ++ c, by rw [hr]; simp⟩
    rw [this] at h1
    cases h1

theorem includes_trim (tok s : Str) (htok : tok ≠ []) (h : includes tok s = false) :
    includes tok (trim s) = false := by
  obtain ⟨a, ha⟩ := List.dropWhile_suffix isWhiteSpace (l := s)
  obtain ⟨c, hc⟩ := List.rdropWhile_prefix isWhiteSpace (l := s.dropWhile isWhiteSpace)
  have e : s = a ++ trim s ++ c := by
    have ht : trim s = List.rdropWhile isWhiteSpace (s.dropWhile isWhiteSpace) := rfl
    rw [ht, List.append_assoc, hc, ha]
  rw [e] at h
  exact includes_infix tok a (trim s) c htok h

theorem tagsClosedFrom_prefix (a b : Str) (o : Bool) (h : tagsClosedFrom o (a ++ b) = true) :
    tagsClosedFrom o a = true := by
  induction a generalizing o with
  | nil => rfl
  | cons c a ih =>
    simp only [List.cons_append, tagsClosedFrom] at h ⊢
    split
    · rename_i h60
      simp only [h60, if_true, Bool.and_eq_true] at h
      simp only [Bool.and_eq_true]
      exact ⟨h.1, ih true h.2⟩
    · rename_i h60
      simp only [h60, if_false] at h
      split
      · rename_i h62
        simp only [h62, if_true] at h
        exact ih false h
      · rename_i h62
        simp only [h62, if_false] at h
        exact ih o h

theorem tagsClosedFrom_dropWhile (s : Str) (o : Bool) (h : tagsClosedFrom o s = true) :
    tagsClosedFrom o (s.dropWhile isWhiteSpace) = true := by
  induction s with
  | nil => rfl
  | cons c cs ih =>
    rw [List.dropWhile_cons]
    by_cases hw : isWhiteSpace c = true
    · rw [if_pos hw]
      apply ih
      have h60 : c ≠ 60 := by intro e; subst e; revert hw; decide
      have h62 : c ≠ 62 := by intro e; subst e; revert hw; decide
      simpa [tagsClosedFrom, h60, h62] using h
    · rw [if_neg hw]; exact h

theorem tagsNotNested_trim (s : Str) (h : tagsClosedFrom false s = true) :
    tagsClosedFrom false (trim s) = true := by
  obtain ⟨c, hc⟩ := List.rdropWhile_prefix isWhiteSpace (l := s.dropWhile isWhiteSpace)
  have ht : trim s = List.rdropWhile isWhiteSpace (s.dropWhile isWhiteSpace) := rfl
  have h2 := tagsClosedFrom_dropWhile s false h
  rw [← hc, ← ht] at h2
  exact tagsClosedFrom_prefix _ _ _ h2

theorem startsWith_replaceNewline (p2 : Str) (cs : Str) :
    ∀ u : Str, 10 ∉ u →
      startsWith u (replaceMatches (literalMatch (10 :: p2)) [10] 0 cs) = true →
      startsWith u cs = true := by
  induction cs with
  | nil => intro u _ h; simpa [replaceMatches] using h
  | cons d ds ih =>
    intro u hu h
    cases u with
    | nil => simp [startsWith]
    | cons e u2 =>
      simp only [List.mem_cons, not_or] at hu
      rw [replaceMatches_cons] at h
      cases hm : literalMatch (10 :: p2) (d :: ds) with
      | some len =>
        rw [hm] at h
        simp only [List.cons_append, List.nil_append, startsWith, Bool.and_eq_true,
          beq_iff_eq] at h
        exact absurd h.1.symm hu.1
      | none =>
        rw [hm] at h
        simp only [startsWith, Bool.and_eq_true, beq_iff_eq] at h ⊢
        exact ⟨h.1, ih u2 hu.2 h.2⟩

theorem includes_drop (tok s : Str) (k : Nat) (htok : tok ≠ []) (h : includes tok s = false) :
    includes tok (s.drop k) = false := by
  apply includes_infix tok (s.take k) (s.drop k) [] htok
  rw [List.append_nil, List.take_append_drop]
  exact h

theorem includes_replaceNewline (tok p2 : Str) (htok : tok ≠ []) (h10 : 10 ∉ tok) :
    ∀ (n : Nat) (s : Str), s.length ≤ n → includes tok s = false →
      includes tok (replaceMatches (literalMatch (10 :: p2)) [10] 0 s) = false := by
  intro n
  induction n with
  | zero =>
    intro s hl _
    have : s = [] := List.eq_nil_of_length_eq_zero (Nat.le_zero.1 hl)
    subst this; rfl
  | succ n ih =>
    intro s hl h
    cases s with
    | nil => rfl
    | cons c cs =>
      have hl2 : cs.length ≤ n := by simp at hl; omega
      have hcs : includes tok cs = false := includes_drop tok (c :: cs) 1 htok h
      rw [replaceMatches_cons]
      cases tok with
      | nil => exact absurd rfl htok
      | cons t0 tok2 =>
        simp only [List.mem_cons, not_or] at h10
        cases hm : literalMatch (10 :: p2) (c :: cs) with
        | some len =>
          simp only [List.cons_append, List.nil_append]
          have hr := ih (cs.drop (len - 1)) (by simp [List.length_drop]; omega)
            (includes_drop _ cs (len - 1) (by simp) hcs)
          unfold includes at hr ⊢
          simp only [matchesIn, Bool.or_eq_false_iff, hr, and_true, literalMatch_isSome,
            startsWith, Bool.and_eq_false_iff, beq_eq_false_iff_ne, ne_eq]
          exact Or.inl (fun e => h10.1 e.symm)
        | none =>
          simp only []
          have hr := ih cs hl2 hcs
          unfold includes at hr ⊢
          simp only [matchesIn, Bool.or_eq_false_iff, hr, and_true, literalMatch_isSome]
          cases hsw : startsWith (t0 :: tok2)
              (c :: replaceMatches (literalMatch (10 :: p2)) [10] 0 cs) with
          | false => rfl
          | true =>
            simp only [startsWith, Bool.and_eq_true, beq_iff_eq] at hsw
            have h1 := startsWith_replaceNewline p2 cs tok2 h10.2 hsw.2
            have h2 := includes_false_suffix (t0 :: tok2) (c :: cs) h [] (c :: cs) rfl (by simp)
            simp [startsWith, hsw.1, h1] at h2

/-- On a text without nested tags, the replace of a token `<…>` by nothing leaves no
such token. -/
theorem includes_replaceAll_self (g0 x : Str) (hu : tagTail (g0 ++ [62]) = true)
    (hc : tagsClosedFrom false x = true) :
    includes (60 :: (g0 ++ [62])) (replaceAll (60 :: (g0 ++ [62])) [] x) = false :=
  includes_replaceMatches _ [] _ (tagMatcher_literal g0) hu (fun y hy => hy) x.length x false
    (Nat.le_refl _) hc (fun a t _ hst => by rw [literalMatch_isSome]; exact hst)

/-- On a text without nested tags that holds no token `<u`, a replace whose matches
run from a `<` to a `>` brings none. -/
theorem includes_replaceMatches_keep (m : Str → Option Nat) (rep u x : Str) (hm : TagMatcher m)
    (hu : tagTail u = true)
    (hrep : ∀ y : Str, includes (60 :: u) y = false → includes (60 :: u) (rep ++ y) = false)
    (hc : tagsClosedFrom false x = true) (hx : includes (60 :: u) x = false) :
    includes (60 :: u) (replaceMatches m rep 0 x) = false :=
  includes_replaceMatches m rep u hm hu hrep x.length x false (Nat.le_refl _) hc
    (fun a t e hst => by
      have hne : t ≠ [] := by
        intro h0; subst h0; simp [startsWith] at hst
      rw [includes_false_suffix _ x hx a t e hne] at hst
      cases hst)

theorem tagsNotNested_replaceMatches (m : Str → Option Nat) (rep x : Str) (hm : TagMatcher m)
    (hrep : ∀ y : Str, tagsClosedFrom false y = true → tagsClosedFrom false (rep ++ y) = true)
    (hc : tagsClosedFrom false x = true) :
    tagsClosedFrom false (replaceMatches m rep 0 x) = true :=
  tagsClosedFrom_replaceMatches m rep hm hrep x.length x false (Nat.le_refl _) hc

/-- The steps behind the removal of the tokens keep a token `<u` away, for a token
without newline that neither `<span>` nor `</span>` starts. -/
theorem includes_after_clean (mode u x : Str) (hu : tagTail u = true) (h10 : 10 ∉ 60 :: u)
    (hs1 : ∀ y : Str, includes (60 :: u) y = false → includes (60 :: u) (lit "<span>" ++ y) = false)
    (hs2 : ∀ y : Str, includes (60 :: u) y = false → includes (60 :: u) (lit "</span>" ++ y) = false)
    (hc : tagsClosedFrom false x = true) (hx : includes (60 :: u) x = false) :
    includes (60 :: u) (stripQuotes (applyMode mode (trim x))) = false := by
  have hne : (60 :: u) ≠ [] := by simp
  have hdet : lit "</details>" = 60 :: ([47, 100, 101, 116, 97, 105, 108, 115] ++ [62]) := by
    decide
  have hcspan1 : ∀ y : Str, tagsClosedFrom false y = true →
      tagsClosedFrom false (lit "<span>" ++ y) = true := by
    intro y hy
    have : lit "<span>" = [60, 115, 112, 97, 110, 62] := by decide
    rw [this]; simpa [tagsClosedFrom] using hy
  have hct := tagsNotNested_trim x hc
  have hxt := includes_trim _ x hne hx
  have hmode : includes (60 :: u) (applyMode mode (trim x)) = false := by
    unfold applyMode
    by_cases hm1 : mode = lit "think"
    · rw [if_pos hm1]
      unfold replaceAll
      rw [hdet]
      apply includes_replaceMatches_keep _ _ _ _ (tagMatcher_literal _) hu hs2
      · exact tagsNotNested_replaceMatches _ _ _ tagMatcher_details hcspan1 hct
      · exact includes_replaceMatches_keep _ _ _ _ tagMatcher_details hu hs1 hct hxt
    · rw [if_neg hm1]
      by_cases hm2 : mode = lit "strip"
      · rw [if_pos hm2]
        unfold replaceAll
        rw [hdet]
        apply includes_replaceMatches_keep _ [] _ _ (tagMatcher_literal _) hu (fun y hy => hy)
        · exact tagsNotNested_replaceMatches _ [] _ tagMatcher_details (fun y hy => hy) hct
        · exact includes_replaceMatches_keep _ [] _ _ tagMatcher_details hu (fun y hy => hy)
            hct hxt
      · rw [if_neg hm2]; exact hxt
  unfold stripQuotes
  apply includes_trim _ _ hne
  have hq : includes (60 :: u) (stripLeadingQuote (applyMode mode (trim x))) = false := by
    unfold stripLeadingQuote
    split
    · exact includes_drop _ _ 2 hne hmode
    · exact hmode
  have hnq : lit "\n> " = 10 :: [62, 32] := by decide
  have hn : lit "\n" = [10] := by decide
  unfold replaceAll
  rw [hnq, hn]
  exact includes_replaceNewline _ _ hne h10 _ _ (Nat.le_refl _) hq

theorem includes_span_keep (u : Str) (hu : ∀ r : Str, startsWith u (115 :: r) = false)
    (hu2 : ∀ r : Str, startsWith u (47 :: 115 :: r) = false) (y : Str)
    (hy : includes (60 :: u) y = false) :
    includes (60 :: u) (lit "<span>" ++ y) = false
    ∧ includes (60 :: u) (lit "</span>" ++ y) = false := by
  have h1 : lit "<span>" = [60, 115, 112, 97, 110, 62] := by decide
  have h2 : lit "</span>" = [60, 47, 115, 112, 97, 110, 62] := by decide
  unfold includes at hy ⊢
  rw [h1, h2]
  constructor
  · simp [matchesIn, literalMatch, startsWith, hu, hy]
  · simp [matchesIn, literalMatch, startsWith, hu2, hy]

/-- C15, as stated, fails under each of the three modes: in `<Fu<Full>ll>` the one
occurrence of `<Full>` is removed and the text around it closes up to `<Full>`, which
no later step removes. -/
theorem markers_removed_counterexample :
    transformThinking (lit "think") (lit "<Fu<Full>ll>") = lit "<Full>"
    ∧ transformThinking (lit "strip") (lit "<Fu<Full>ll>") = lit "<Full>"
    ∧ transformThinking (lit "raw") (lit "<Fu<Full>ll>") = lit "<Full>"
    ∧ includes (lit "<Full>") (transformThinking (lit "think") (lit "<Fu<Full>ll>")) = true :=
  ⟨by decide, by decide, by decide, by decide⟩

/-- C15, amended. For every input in which no tag opens inside another (between a
`<` and the next `<` there is a `>`) and every mode, the result of `transformThinking`
holds no occurrence of `</thinking>`, `<Full>` or `</Full>`. -/
theorem markers_removed (mode s : Str) (h : tagsNotNested s = true) :
    includes (lit "</thinking>") (transformThinking mode s) = false
    ∧ includes (lit "<Full>") (transformThinking mode s) = false
    ∧ includes (lit "</Full>") (transformThinking mode s) = false := by
  have e1 : lit "</thinking>" = 60 :: ([47, 116, 104, 105, 110, 107, 105, 110, 103] ++ [62]) := by
    decide
  have e2 : lit "<Full>" = 60 :: ([70, 117, 108, 108] ++ [62]) := by decide
  have e3 : lit "</Full>" = 60 :: ([47, 70, 117, 108, 108] ++ [62]) := by decide
  have t1 : tagTail ([47, 116, 104, 105, 110, 107, 105, 110, 103] ++ [62]) = true := by decide
  have t2 : tagTail ([70, 117, 108, 108] ++ [62]) = true := by decide
  have t3 : tagTail ([47, 70, 117, 108, 108] ++ [62]) = true := by decide
  have id0 : ∀ y : Str, tagsClosedFrom false y = true → tagsClosedFrom false ([] ++ y) = true :=
    fun y hy => hy
  -- the text after each of the first four replaces
  have c1 : tagsClosedFrom false (replaceMatches summaryMatch [] 0 s) = true :=
    tagsNotNested_replaceMatches _ [] _ tagMatcher_summary id0 h
  generalize hs1 : replaceMatches summaryMatch [] 0 s = s1 at c1
  have c2 : tagsClosedFrom false (replaceAll (lit "</thinking>") [] s1) = true := by
    rw [e1]; exact tagsNotNested_replaceMatches _ [] _ (tagMatcher_literal _) id0 c1
  have a2 : includes (lit "</thinking>") (replaceAll (lit "</thinking>") [] s1) = false := by
    rw [e1]; exact includes_replaceAll_self _ _ t1 c1
  generalize hs2 : replaceAll (lit "</thinking>") [] s1 = s2 at c2 a2
  have c3 : tagsClosedFrom false (replaceAll (lit "<Full>") [] s2) = true := by
    rw [e2]; exact tagsNotNested_replaceMatches _ [] _ (tagMatcher_literal _) id0 c2
  have a3 : includes (lit "</thinking>") (replaceAll (lit "<Full>") [] s2) = false := by
    rw [e1] at a2 ⊢; rw [e2]
    exact includes_replaceMatches_keep _ [] _ _ (tagMatcher_literal _) t1 (fun y hy => hy) c2 a2
  have b3 : includes (lit "<Full>") (replaceAll (lit "<Full>") [] s2) = false := by
    rw [e2]; exact includes_replaceAll_self _ _ t2 c2
  generalize hs3 : replaceAll (lit "<Full>") [] s2 = s3 at c3 a3 b3
  have c4 : tagsClosedFrom false (replaceAll (lit "</Full>") [] s3) = true := by
    rw [e3]; exact tagsNotNested_replaceMatches _ [] _ (tagMatcher_literal _) id0 c3
  have a4 : includes (lit "</thinking>") (replaceAll (lit "</Full>") [] s3) = false := by
    rw [e1] at a3 ⊢; rw [e3]
    exact includes_replaceMatches_keep _ [] _ _ (tagMatcher_literal _) t1 (fun y hy => hy) c3 a3
  have b4 : includes (lit "<Full>") (replaceAll (lit "</Full>") [] s3) = false := by
    rw [e2] at b3 ⊢; rw [e3]
    exact includes_replaceMatches_keep _ [] _ _ (tagMatcher_literal _) t2 (fun y hy => hy) c3 b3
  have d4 : includes (lit "</Full>") (replaceAll (lit "</Full>") [] s3) = false := by
    rw [e3]; exact includes_replaceAll_self _ _ t3 c3
  generalize hs4 : replaceAll (lit "</Full>") [] s3 = s4 at c4 a4 b4 d4
  have hT : transformThinking mode s = stripQuotes (applyMode mode (trim s4)) := by
    rw [← hs4, ← hs3, ← hs2, ← hs1]; rfl
  rw [hT]
  have n1 : (10 : Nat) ∉ 60 :: ([47, 116, 104, 105, 110, 107, 105, 110, 103] ++ [62]) := by decide
  have n2 : (10 : Nat) ∉ 60 :: ([70, 117, 108, 108] ++ [62]) := by decide
  have n3 : (10 : Nat) ∉ 60 :: ([47, 70, 117, 108, 108] ++ [62]) := by decide
  have k1 := includes_span_keep ([47, 116, 104, 105, 110, 107, 105, 110, 103] ++ [62])
    (fun r => by simp [startsWith]) (fun r => by simp [startsWith])
  have k2 := includes_span_keep ([70, 117, 108, 108] ++ [62])
    (fun r => by simp [startsWith]) (fun r => by simp [startsWith])
  have k3 := includes_span_keep ([47, 70, 117, 108, 108] ++ [62])
    (fun r => by simp [startsWith]) (fun r => by simp [startsWith])
  rw [e1] at a4 ⊢
  rw [e2] at b4 ⊢
  rw [e3] at d4 ⊢
  exact ⟨includes_after_clean mode _ s4 t1 n1 (fun y hy => (k1 y hy).1) (fun y hy => (k1 y hy).2)
      c4 a4,
    includes_after_clean mode _ s4 t2 n2 (fun y hy => (k2 y hy).1) (fun y hy => (k2 y hy).2)
      c4 b4,
    includes_after_clean mode _ s4 t3 n3 (fun y hy => (k3 y hy).1) (fun y hy => (k3 y hy).2)
      c4 d4⟩

/-- C15, an example: a text with the three tokens, a summary wrapper and a details
tag, none opening inside another, under the mode `strip`. -/
theorem markers_removed_witness :
    tagsNotNested (lit "<summary>s</summary>a</thinking><Full>b</Full><details open>c</details>") = true
    ∧ transformThinking (lit "strip")
        (lit "<summary>s</summary>a</thinking><Full>b</Full><details open>c</details>") = lit "abc"
    ∧ includes (lit "<Full>") (transformThinking (lit "strip")
        (lit "<summary>s</summary>a</thinking><Full>b</Full><details open>c</details>")) = false :=
  ⟨by decide, by decide,
   (markers_removed (lit "strip")
     (lit "<summary>s</summary>a</thinking><Full>b</Full><details open>c</details>")
     (by decide)).2.1⟩

end Zai2Api
